import Mathlib

/-!
Shallow embedding of the plot-organizer aggregation and rendering core
(`plot_organizer/services/plot_service.py`, `plot_organizer/services/export_service.py`,
`plot_organizer/ui/grid_board.py`) and proofs about the behaviour claimed by the
specification.

Modelling conventions:
* A dataframe cell is a `Val`: either a rational number (`num`) — covering every
  numeric or numeric-parseable value — or a non-numeric string (`str`).  A missing
  cell (pandas `NaN`) is an absent key in the row's association list, surfacing as
  `none` from `cellV`.
* pandas `groupby` sorts the distinct non-missing keys in ascending order; this is
  `sortedDistinct`.  Python compares strings by code points, which is exactly the
  lexicographic order on `List Char` used for the `Val` order below.
* Floating point is modelled by exact rational arithmetic.  The single operation
  that leaves ℚ is the square root inside pandas `sem`; a standard error value is
  therefore carried around as its exact square (`semSq`), and a drawn band
  `mean ± sem` is represented by the pair `(mean, semSq)`.  All statements about
  band geometry are phrased equivalently in terms of these squares.
* pandas `sem` of a single observation is `NaN` (ddof = 1); `NaN` standard errors
  are represented as `none`.
-/

/-- One dataframe cell: a numeric value or a non-numeric string. -/
inductive Val where
  | num (q : ℚ)
  | str (s : String)
deriving DecidableEq

/-- Sort key for `Val`: numbers before strings, numbers by numeric order, strings
by code-point lexicographic order (Python's string order). -/
def Val.toKey : Val → ℚ ⊕ₗ List Char
  | .num q => toLex (Sum.inl q)
  | .str s => toLex (Sum.inr s.data)

instance : LinearOrder Val :=
  LinearOrder.lift' Val.toKey (by
    intro a b h
    cases a with
    | num p =>
      cases b with
      | num q =>
        exact congrArg Val.num (Sum.inl.inj (h : (Sum.inl p : ℚ ⊕ List Char) = Sum.inl q))
      | str t =>
        exact absurd (h : (Sum.inl p : ℚ ⊕ List Char) = Sum.inr t.data) (fun hc => Sum.noConfusion hc)
    | str s =>
      cases b with
      | num q =>
        exact absurd (h : (Sum.inr s.data : ℚ ⊕ List Char) = Sum.inl q) (fun hc => Sum.noConfusion hc)
      | str t =>
        have h2 : s.data = t.data :=
          Sum.inr.inj (h : (Sum.inr s.data : ℚ ⊕ List Char) = Sum.inr t.data)
        have h3 : s = t := by
          cases s with
          | mk d1 => cases t with
            | mk d2 => exact congrArg String.mk h2
        exact congrArg Val.str h3)

/-- `pd.to_numeric(·, errors="coerce")` on one cell: numbers survive, anything
else becomes missing. -/
def Val.toNumeric : Val → Option ℚ
  | .num q => some q
  | .str _ => none

/-- Python `str()` of a cell value, as used when synthesizing composite hue keys. -/
def Val.pyStr : Val → String
  | .num q => toString q
  | .str s => s

/-- Python `repr()` of a cell value, as it appears inside `str()` of a tuple. -/
def Val.pyRepr : Val → String
  | .num q => toString q
  | .str s => "'" ++ s ++ "'"

/-- The ascending list of distinct values of a list: pandas
`sorted(series.unique())`, and the key order of a pandas `groupby`. -/
def sortedDistinct {κ : Type} [LinearOrder κ] [DecidableEq κ] (l : List κ) : List κ :=
  List.insertionSort (· ≤ ·) l.dedup

/-- Arithmetic mean of a list of rationals (pandas `.mean()` on a fully numeric,
non-empty selection). -/
def mean (l : List ℚ) : ℚ := l.sum / l.length

/-- Minimum of a non-empty list (pandas `.min()` after dropping missing values). -/
def listMin : List ℚ → ℚ
  | [] => 0
  | a :: as => as.foldl min a

/-- Maximum of a non-empty list (pandas `.max()` after dropping missing values). -/
def listMax : List ℚ → ℚ
  | [] => 0
  | a :: as => as.foldl max a

/-- The square of pandas `Series.sem()`: unbiased sample variance (ddof = 1)
divided by the sample count.  `none` models the `NaN` produced when fewer than
two observations are present. -/
def semSq (l : List ℚ) : Option ℚ :=
  if 2 ≤ l.length then
    some (((l.map (fun v => (v - mean l) ^ 2)).sum / ((l.length : ℚ) - 1)) / (l.length : ℚ))
  else none

/-- A dataframe row: an association list from column names to cells.  A missing
key is a missing (`NaN`) cell. -/
abbrev PRow : Type := List (String × Val)

/-- Cell access `row[col]`, `none` when missing. -/
def cellV : PRow → String → Option Val
  | [], _ => none
  | (k, v) :: rest, c => if k = c then some v else cellV rest c

/-- A dataframe: its column index plus its rows. -/
structure PDf where
  cols : List String
  rows : List PRow
deriving DecidableEq

/-- The numeric values found in a column of a row list, in row order: the column
coerced with `to_numeric` and the missing values dropped (what pandas `mean`,
`min`, `max` actually consume). -/
def colNums (rows : List PRow) (c : String) : List ℚ :=
  rows.filterMap (fun r => (cellV r c).bind Val.toNumeric)

/-- The sorted distinct non-missing keys of `df.groupby(c)`. -/
def groupKeys (rows : List PRow) (c : String) : List Val :=
  sortedDistinct (rows.filterMap (fun r => cellV r c))

/-- The rows of one `groupby(c)` group, in original row order. -/
def groupSlice (rows : List PRow) (c : String) (v : Val) : List PRow :=
  rows.filter (fun r => decide (cellV r c = some v))

/-- Equality-filter application: `for col, val in filter_query.items():
subset = subset[subset[col] == val]`. -/
def applyFilter (rows : List PRow) (fq : List (String × Val)) : List PRow :=
  fq.foldl (fun acc e => acc.filter (fun r => decide (cellV r e.1 = some e.2))) rows

/-- Column presence combined with Python truthiness of the column name:
`sem_column and sem_column in df.columns`. -/
def semColActive (semCol : Option String) (cols : List String) : Bool :=
  match semCol with
  | some c => decide (c ≠ "") && decide (c ∈ cols)
  | none => false

/-! ## Aggregation and SEM engine (`PlotTile._plot_with_sem`, `plot_service` helpers) -/

/-- No-SEM aggregation `df.groupby(x, as_index=False)[y].mean()`: one row per
distinct x key in ascending key order, y averaged within the group. -/
def aggMeanByX (rows : List PRow) (x y : String) : List (Val × ℚ) :=
  (groupKeys rows x).map (fun v => (v, mean (colNums (groupSlice rows x v) y)))

/-- First level of computed-SEM mode:
`grouped = df.groupby([sem_column, x], as_index=False)[y].mean()`.
pandas sorts the pair keys lexicographically (subject first), realised here by
iterating subjects in ascending order and, inside each subject slice, x keys in
ascending order. -/
def semStage1 (rows : List PRow) (semc x y : String) : List ((Val × Val) × ℚ) :=
  (groupKeys rows semc).flatMap (fun s =>
    let rs := groupSlice rows semc s
    (groupKeys rs x).map (fun xv => ((s, xv), mean (colNums (groupSlice rs x xv) y))))

/-- Second level of computed-SEM mode:
`stats = grouped.groupby(x)[y].agg(['mean', 'sem'])`, one `(x, mean, semSq)`
triple per distinct x of the first-level table, ascending. -/
def semStage2 (rows : List PRow) (semc x y : String) : List (Val × ℚ × Option ℚ) :=
  let g := semStage1 rows semc x y
  (sortedDistinct (g.map (fun e => e.1.2))).map (fun xv =>
    let vals := (g.filter (fun e => decide (e.1.2 = xv))).map (fun e => e.2)
    (xv, mean vals, semSq vals))

/-- Modelled from the spec wording of the computed-SEM algorithm: the
per-subject representative values at one x — for each distinct SEM-column value
among the rows at that x, the mean of y over the rows of that subject at that
x.  Used to state C2; the code's own two-level grouping is `semStage1` and
`semStage2`. -/
def specReps (rows : List PRow) (semc x y : String) (xv : Val) : List ℚ :=
  (groupKeys (groupSlice rows x xv) semc).map
    (fun s => mean (colNums (groupSlice (groupSlice rows x xv) semc s) y))

/-- Whether a group of a pandas mean aggregation has at least one numeric value,
i.e. whether its mean is not `NaN` (`.notna()` on the aggregated column). -/
def meanOpt (l : List ℚ) : Option ℚ :=
  if l = [] then none else some (mean l)

/-- Pre-computed-SEM aggregation
`df.groupby(x, as_index=False).agg({y: 'mean', sem_column: 'mean'})`:
one `(x, mean-of-y, mean-of-sem)` row per distinct x, ascending; the aggregated
SEM cell is `none` when the group holds no numeric SEM value (`NaN`). -/
def precompAgg (rows : List PRow) (x y semc : String) : List (Val × ℚ × Option ℚ) :=
  (groupKeys rows x).map (fun v =>
    (v, mean (colNums (groupSlice rows x v) y), meanOpt (colNums (groupSlice rows x v) semc)))

/-- The duplicate check of `_plot_with_precomputed_sem`:
`(df.groupby(x).size() > 1).any()`. -/
def hasDupX (rows : List PRow) (x : String) : Bool :=
  (groupKeys rows x).any (fun v => decide (1 < (groupSlice rows x v).length))

/-- The warning `_plot_with_precomputed_sem` logs when duplicate x rows are
averaged. -/
def dupWarning : String :=
  "Multiple rows found for some x-values. Averaged y-values and SEM values for plotting. Consider pre-aggregating your data."

/-- Exact representation of one drawn band half-width. -/
inductive HalfWidth where
  | sqrtSq (s : ℚ)
  | plain (w : ℚ)
deriving DecidableEq

/-- One plotted series: the mean line and, when drawn, the shaded band.  A band
point is `(x, mean, half-width)`; a `none` half-width is a `NaN` band edge, which
`fill_between` leaves out (a gap in the band).  A `HalfWidth.sqrtSq s` half-width
is the square root of `s` (computed-SEM mode); `HalfWidth.plain w` is the exact
value `w` (pre-computed mode). -/
structure SeriesOut where
  label : Option String
  pts : List (Val × ℚ)
  band : Option (List (Val × ℚ × Option HalfWidth))
deriving DecidableEq

/-- `PlotTile._plot_with_sem` (grid_board.py): one series from an
already-filtered, already-hue-sliced row set, together with the warnings logged
while producing it. -/
def plotWithSemLive (cols : List String) (rows : List PRow) (x y : String)
    (semCol : Option String) (semPre : Bool) (label : Option String) :
    SeriesOut × List String :=
  if semColActive semCol cols then
    let c := semCol.getD ""
    if semPre then
      let agg := precompAgg rows x y c
      ({ label := label
         pts := agg.map (fun e => (e.1, e.2.1))
         band :=
           if agg.any (fun e => e.2.2.isSome) then
             some (agg.map (fun e => (e.1, e.2.1, e.2.2.map HalfWidth.plain)))
           else none },
       if hasDupX rows x then [dupWarning] else [])
    else
      let stats := semStage2 rows c x y
      ({ label := label
         pts := stats.map (fun e => (e.1, e.2.1))
         band :=
           if stats.any (fun e => e.2.2.isSome) then
             some (stats.map (fun e => (e.1, e.2.1, e.2.2.map HalfWidth.sqrtSq)))
           else none },
       [])
  else
    ({ label := label, pts := aggMeanByX rows x y, band := none }, [])

/-- The inner `plot_with_sem` helper of `_render_plot_to_ax` (export_service.py):
the same aggregation as the live path, but with no duplicate-x warning anywhere. -/
def plotWithSemExport (cols : List String) (rows : List PRow) (x y : String)
    (semCol : Option String) (semPre : Bool) (label : Option String) : SeriesOut :=
  if semColActive semCol cols then
    let c := semCol.getD ""
    if semPre then
      let agg := precompAgg rows x y c
      { label := label
        pts := agg.map (fun e => (e.1, e.2.1))
        band :=
          if agg.any (fun e => e.2.2.isSome) then
            some (agg.map (fun e => (e.1, e.2.1, e.2.2.map HalfWidth.plain)))
          else none }
    else
      let stats := semStage2 rows c x y
      { label := label
        pts := stats.map (fun e => (e.1, e.2.1))
        band :=
          if stats.any (fun e => e.2.2.isSome) then
            some (stats.map (fun e => (e.1, e.2.1, e.2.2.map HalfWidth.sqrtSq)))
          else none }
  else
    { label := label, pts := aggMeanByX rows x y, band := none }

/-! ## Group expansion (`plot_service.expand_groups`) -/

/-- `itertools.product`: Cartesian product of lists, rightmost factor varying
fastest. -/
def cartProd {κ : Type} : List (List κ) → List (List κ)
  | [] => [[]]
  | l :: ls => l.flatMap (fun v => (cartProd ls).map (fun vs => v :: vs))

/-- The per-column sorted distinct non-missing values:
`sorted(df[g].dropna().unique().tolist())` for each grouping column. -/
def groupUniques (df : PDf) (groups : List String) : List (List Val) :=
  groups.map (fun g => sortedDistinct (df.rows.filterMap (fun r => cellV r g)))

/-- `expand_groups(df, groups)`: concrete equality-filter dictionaries for the
Cartesian product of the group columns, failing when more than 50 combinations
arise. -/
def expandGroups (df : PDf) (groups : List String) :
    Except String (List (List (String × Val))) :=
  if groups = [] then .ok [[]]
  else
    let combos := (cartProd (groupUniques df groups)).map (fun vals => groups.zip vals)
    if 50 < combos.length then
      .error "Too many combinations (>50). Reduce groups or categories."
    else .ok combos

/-! ## Shared limits (`plot_service.shared_limits`, `shared_limits_with_sem`) -/

/-- Per-subset contribution of one column to the shared-limits accumulators: a
`(min, max)` pair of the numeric-coerced values, or nothing when the subset is
empty or the column has no numeric-parseable value in it. -/
def minMaxEntries (subsets : List (List PRow)) (c : String) : List (ℚ × ℚ) :=
  subsets.filterMap (fun sub =>
    if sub = [] then none
    else
      let nums := colNums sub c
      if nums = [] then none else some (listMin nums, listMax nums))

/-- `shared_limits(subsets, x, y)`: shared x/y ranges across non-empty subsets,
with the `(0,1)/(0,1)` fallback whenever either accumulator stays empty. -/
def sharedLimits (subsets : List (List PRow)) (x y : String) :
    (ℚ × ℚ) × (ℚ × ℚ) :=
  let xs := minMaxEntries subsets x
  let ys := minMaxEntries subsets y
  if xs = [] ∨ ys = [] then ((0, 1), (0, 1))
  else
    ((listMin (xs.map Prod.fst), listMax (xs.map Prod.snd)),
     (listMin (ys.map Prod.fst), listMax (ys.map Prod.snd)))

/-- One y-axis contribution of `shared_limits_with_sem`, exactly: `sq m s`
stands for the band bounds `m - sqrt s` (a lower accumulator entry) and
`m + sqrt s` (an upper one); `iv lo hi` is an exact pair of accumulator
entries. -/
inductive BandPt where
  | sq (m s : ℚ)
  | iv (lo hi : ℚ)
deriving DecidableEq

/-- Whether the interval a `BandPt` stands for is inside `[lo, hi]`.  For
`sq m s` the condition `lo ≤ m - sqrt s ∧ m + sqrt s ≤ hi` is rendered
exactly over ℚ by squaring. -/
def BandPt.inside (lo hi : ℚ) : BandPt → Prop
  | .sq m s => lo ≤ m ∧ m ≤ hi ∧ s ≤ (m - lo) ^ 2 ∧ s ≤ (hi - m) ^ 2
  | .iv a b => lo ≤ a ∧ b ≤ hi

/-- `_compute_sem_stats(df, x, y, sem_column)`: band bounds from the two-level
computed-SEM aggregation, with `NaN` SEM filled with 0; `none` when the table is
empty. -/
def computeSemStats (rows : List PRow) (x y semc : String) : Option (List BandPt) :=
  let stats := semStage2 rows semc x y
  if stats = [] then none
  else some (stats.map (fun e => BandPt.sq e.2.1 (e.2.2.getD 0)))

/-- `_compute_precomputed_sem_stats(df, x, y, sem_column)`: band bounds
`mean ± mean-of-sem` per x, `NaN` aggregated SEM filled with 0; `none` when the
table is empty. -/
def precompSemStats (rows : List PRow) (x y semc : String) : Option (List BandPt) :=
  let agg := precompAgg rows x y semc
  if agg = [] then none
  else some (agg.map (fun e => BandPt.iv (e.2.1 - e.2.2.getD 0) (e.2.1 + e.2.2.getD 0)))

/-- Python truthiness of the optional hue string combined with column presence:
`hue and hue in subset.columns`. -/
def hueColActive (hue : Option String) (cols : List String) : Bool :=
  match hue with
  | some c => decide (c ≠ "") && decide (c ∈ cols)
  | none => false

/-- The hue groups `subset.groupby(hue)` of a row list: ascending distinct keys,
each with its rows. -/
def hueGroups (rows : List PRow) (c : String) : List (Val × List PRow) :=
  (groupKeys rows c).map (fun v => (v, groupSlice rows c v))

/-- The y-axis band contributions of one filtered subset inside
`shared_limits_with_sem`. -/
def semBandOfSubset (cols : List String) (subset : List PRow) (x y : String)
    (semCol : Option String) (hue : Option String) (semPre : Bool) : List BandPt :=
  if semColActive semCol cols then
    let c := semCol.getD ""
    let statsOf : List PRow → Option (List BandPt) :=
      fun rs => if semPre then precompSemStats rs x y c else computeSemStats rs x y c
    if hueColActive hue cols then
      (hueGroups subset (hue.getD "")).flatMap (fun g => (statsOf g.2).getD [])
    else (statsOf subset).getD []
  else
    if hueColActive hue cols then
      (hueGroups subset (hue.getD "")).flatMap (fun g =>
        let means := (aggMeanByX g.2 x y).map Prod.snd
        if means = [] then [] else [BandPt.iv (listMin means) (listMax means)])
    else
      let means := (aggMeanByX subset x y).map Prod.snd
      if means = [] then [] else [BandPt.iv (listMin means) (listMax means)]

/-- `shared_limits_with_sem(df, filter_queries, x, y, sem_column, hue,
sem_precomputed)` up to the final min/max fold: the x-axis `(min, max)`
contributions and the exact y-axis band contributions accumulated over the
filter queries.  (The function's final result folds `min`/`max` over exactly
these accumulators and falls back to the unit ranges when either is empty.) -/
def semLimitsEntries (df : PDf) (filters : List (List (String × Val))) (x y : String)
    (semCol : Option String) (hue : Option String) (semPre : Bool) :
    List (ℚ × ℚ) × List BandPt :=
  (minMaxEntries (filters.map (applyFilter df.rows)) x,
   filters.foldl (fun acc fq =>
     let subset := applyFilter df.rows fq
     if subset = [] then acc
     else acc ++ semBandOfSubset df.cols subset x y semCol hue semPre) [])

/-! ## Error marker overlay engine
(`PlotTile._render_error_markers`, `export_service._render_error_markers_to_ax`) -/

/-- One stored error-marker descriptor (the dict attached to a tile). -/
structure EMarker where
  x : Option ℚ := none
  y : Option ℚ := none
  xerr : Option ℚ := none
  yerr : Option ℚ := none
  marker : Option String := none
  color : Option String := none
  label : Option String := none
deriving DecidableEq

/-- The classification loop: `xerr` present goes to the x-error bucket, else
`yerr` present goes to the y-error bucket, in original list order. -/
def classifyMarkers : List EMarker → List EMarker × List EMarker
  | [] => ([], [])
  | m :: ms =>
    let rest := classifyMarkers ms
    if m.xerr.isSome then (m :: rest.1, rest.2)
    else if m.yerr.isSome then (rest.1, m :: rest.2)
    else rest

/-- One `ax.errorbar(...)` call issued for a marker. -/
structure DrawnMarker where
  x : Option ℚ
  y : Option ℚ
  err : ℚ
  horiz : Bool
  fmt : String
  color : String
  label : Option String
deriving DecidableEq

/-- The auto-stacking position used for the i-th bucket entry lacking an
explicit coordinate: `limit_max - (0.05 + i * 0.08) * range`. -/
def autoStackPos (lim : ℚ × ℚ) (i : ℕ) : ℚ :=
  lim.2 - (5 / 100 + (i : ℚ) * (8 / 100)) * (lim.2 - lim.1)

/-- `for i, marker in enumerate(bucket): ...` with an explicit running index. -/
def stackMap {α β : Type} (f : ℕ → α → β) : ℕ → List α → List β
  | _, [] => []
  | i, a :: as => f i a :: stackMap f (i + 1) as

/-- `PlotTile._render_error_markers`: the list of errorbar calls of the live
renderer, given the current axis view limits.  The live path always draws the
`'v'` marker shape. -/
def renderMarkersLive (ms : List EMarker) (xlim ylim : ℚ × ℚ) : List DrawnMarker :=
  let buckets := classifyMarkers ms
  stackMap (fun i m =>
    { x := m.x
      y := some (m.y.getD (autoStackPos ylim i))
      err := m.xerr.getD 0
      horiz := true
      fmt := "v"
      color := m.color.getD "red"
      label := m.label }) 0 buckets.1
  ++ stackMap (fun i m =>
    { x := some (m.x.getD (autoStackPos xlim i))
      y := m.y
      err := m.yerr.getD 0
      horiz := false
      fmt := "v"
      color := m.color.getD "red"
      label := m.label }) 0 buckets.2

/-- `export_service._render_error_markers_to_ax`: identical classification and
stacking, but the drawn shape is `marker.get("marker", "v")`. -/
def renderMarkersExport (ms : List EMarker) (xlim ylim : ℚ × ℚ) : List DrawnMarker :=
  let buckets := classifyMarkers ms
  stackMap (fun i m =>
    { x := m.x
      y := some (m.y.getD (autoStackPos ylim i))
      err := m.xerr.getD 0
      horiz := true
      fmt := m.marker.getD "v"
      color := m.color.getD "red"
      label := m.label }) 0 buckets.1
  ++ stackMap (fun i m =>
    { x := some (m.x.getD (autoStackPos xlim i))
      y := m.y
      err := m.yerr.getD 0
      horiz := false
      fmt := m.marker.getD "v"
      color := m.color.getD "red"
      label := m.label }) 0 buckets.2

/-! ## Hue handling and the two render pipelines
(`PlotTile.set_plot`, `export_service._render_plot_to_ax`) -/

/-- The tile's hue specification: `None`, a single column name, or an ordered
list of column names. -/
inductive Hue where
  | noHue
  | single (c : String)
  | multi (cs : List String)
deriving DecidableEq

/-- Python truthiness of the hue value (`if hue:`): `None`, `""` and `[]` are
falsy. -/
def hueTruthy : Hue → Bool
  | .noHue => false
  | .single c => decide (c ≠ "")
  | .multi cs => decide (cs ≠ [])

/-- The synthesized composite hue key of one row:
`", ".join(f"{col}={row[col]}" for col in hue)`. -/
def compositeKey (cs : List String) (r : PRow) : String :=
  String.intercalate ", " (cs.map (fun c => c ++ "=" ++ ((cellV r c).map Val.pyStr).getD "nan"))

/-- Generic `groupby` on a derived key: ascending distinct non-missing keys,
each with its rows in original order. -/
def keyGroups {α κ : Type} [LinearOrder κ] [DecidableEq κ]
    (rows : List α) (k : α → Option κ) : List (κ × List α) :=
  (sortedDistinct (rows.filterMap k)).map
    (fun v => (v, rows.filter (fun r => decide (k r = some v))))

/-- All hue cells of a row for a multi-column groupby key; `none` (key dropped)
when any of them is missing. -/
def cellsAll (r : PRow) : List String → Option (List Val)
  | [] => some []
  | c :: cs =>
    match cellV r c, cellsAll r cs with
    | some v, some vs => some (v :: vs)
    | _, _ => none

/-- Python `str()` of a pandas multi-column group key: the scalar itself for a
single grouping column, `str()` of the value tuple otherwise. -/
def tupleStr : List Val → String
  | [v] => Val.pyStr v
  | vs => "(" ++ String.intercalate ", " (vs.map Val.pyRepr) ++ ")"

/-- Python truthiness of an optional title (`if title:`). -/
def truthyTitle : Option String → Option String
  | some t => if t = "" then none else some t
  | none => none

/-- Everything one render call draws onto its axis. -/
structure RenderOut where
  noData : Bool
  series : List SeriesOut
  legend : Bool
  title : Option String
  xlimApplied : Option (ℚ × ℚ)
  ylimApplied : Option (ℚ × ℚ)
  hlines : List ℚ
  vlines : List ℚ
  markers : List DrawnMarker
  warnings : List String
deriving DecidableEq

/-- `PlotTile.set_plot`, drawing half: filter, hue-composite, aggregate,
decorate, error markers.  `axXlim`/`axYlim` are the axis view limits in force
when `_render_error_markers` reads `ax.get_xlim()`/`ax.get_ylim()`. -/
def renderLive (df : PDf) (x y : String) (hue : Hue) (semCol : Option String)
    (semPre : Bool) (title : Option String) (filterQ : Option (List (String × Val)))
    (xlim ylim : Option (ℚ × ℚ)) (hlines vlines : List ℚ) (markers : List EMarker)
    (axXlim axYlim : ℚ × ℚ) : RenderOut :=
  let plotDf := applyFilter df.rows (filterQ.getD [])
  let seriesWarn : List SeriesOut × List String :=
    if plotDf = [] then ([], [])
    else
      match hue with
      | .multi cs =>
        if cs ≠ [] then
          let gs := keyGroups plotDf (fun r => some (compositeKey cs r))
          ((gs.map (fun g => (plotWithSemLive df.cols g.2 x y semCol semPre (some g.1)).1)),
           gs.flatMap (fun g => (plotWithSemLive df.cols g.2 x y semCol semPre (some g.1)).2))
      else
          let p := plotWithSemLive df.cols plotDf x y semCol semPre none
          ([p.1], p.2)
      | .single c =>
        if c ≠ "" then
          let gs := keyGroups plotDf (fun r => cellV r c)
          ((gs.map (fun g => (plotWithSemLive df.cols g.2 x y semCol semPre (some g.1.pyStr)).1)),
           gs.flatMap (fun g => (plotWithSemLive df.cols g.2 x y semCol semPre (some g.1.pyStr)).2))
        else
          let p := plotWithSemLive df.cols plotDf x y semCol semPre none
          ([p.1], p.2)
      | .noHue =>
        let p := plotWithSemLive df.cols plotDf x y semCol semPre none
        ([p.1], p.2)
  { noData := decide (plotDf = [])
    series := seriesWarn.1
    legend := decide (plotDf ≠ []) && hueTruthy hue
    title := truthyTitle title
    xlimApplied := xlim
    ylimApplied := ylim
    hlines := hlines
    vlines := vlines
    markers := renderMarkersLive markers axXlim axYlim
    warnings := seriesWarn.2 }

/-- `export_service._render_plot_to_ax`: the export re-render from the tile's
retained state.  `figTitle` is what `tile.figure.axes[0].get_title()` returns.
There is no empty-data placeholder, the raw hue value is fed to `groupby`
directly (no composite synthesis), no `xlim` is ever applied, and the
pre-computed duplicate warning is absent. -/
def renderExport (df : PDf) (x y : String) (hue : Hue) (semCol : Option String)
    (semPre : Bool) (figTitle : Option String) (filterQ : Option (List (String × Val)))
    (ylim : Option (ℚ × ℚ)) (hlines vlines : List ℚ) (markers : List EMarker)
    (axXlim axYlim : ℚ × ℚ) : RenderOut :=
  let plotDf := applyFilter df.rows (filterQ.getD [])
  let series : List SeriesOut :=
    match hue with
    | .multi cs =>
      if cs ≠ [] then
        (keyGroups plotDf (fun r => cellsAll r cs)).map
          (fun g => plotWithSemExport df.cols g.2 x y semCol semPre (some (tupleStr g.1)))
      else [plotWithSemExport df.cols plotDf x y semCol semPre none]
    | .single c =>
      if c ≠ "" then
        (keyGroups plotDf (fun r => cellV r c)).map
          (fun g => plotWithSemExport df.cols g.2 x y semCol semPre (some g.1.pyStr))
      else [plotWithSemExport df.cols plotDf x y semCol semPre none]
    | .noHue => [plotWithSemExport df.cols plotDf x y semCol semPre none]
  { noData := false
    series := series
    legend := hueTruthy hue
    title := truthyTitle figTitle
    xlimApplied := none
    ylimApplied := ylim
    hlines := hlines
    vlines := vlines
    markers := renderMarkersExport markers axXlim axYlim
    warnings := [] }

/-! ## Tile state, serialization round trip
(`PlotTile.set_plot` stored fields, `get_plot_data`, `set_plot_from_data`) -/

/-- The retained state of a plot tile.  `figTitle` models the title stored on
the tile's axes (read back by `get_plot_data` via `get_title() or None`). -/
structure TileState where
  df : Option PDf
  x : Option String
  y : Option String
  hue : Hue
  semColumn : Option String
  semPrecomputed : Bool
  filterQuery : Option (List (String × Val))
  hlines : List ℚ
  vlines : List ℚ
  styleLine : Bool
  styleMarker : Bool
  ylim : Option (ℚ × ℚ)
  errorMarkers : List EMarker
  figTitle : Option String
deriving DecidableEq

/-- `PlotTile.set_plot`, state half: stores the call's arguments on the tile
(`hlines or []`, `vlines or []`, `error_markers or []`) and sets the axes title
when the title argument is truthy.  The `xlim` argument is applied to the axes
but never stored. -/
def setPlot (df : PDf) (x y : String) (hue : Hue) (semColumn : Option String)
    (semPrecomputed : Bool) (title : Option String)
    (filterQuery : Option (List (String × Val))) (xlim ylim : Option (ℚ × ℚ))
    (hlines vlines : Option (List ℚ)) (styleLine styleMarker : Bool)
    (errorMarkers : Option (List EMarker)) : TileState :=
  { df := some df
    x := some x
    y := some y
    hue := hue
    semColumn := semColumn
    semPrecomputed := semPrecomputed
    filterQuery := filterQuery
    hlines := hlines.getD []
    vlines := vlines.getD []
    styleLine := styleLine
    styleMarker := styleMarker
    ylim := ylim
    errorMarkers := errorMarkers.getD []
    figTitle := truthyTitle title }

/-- The serialized plot spec produced by `get_plot_data` (tuple-vs-list coding
of `ylim` elided: both sides are an optional pair here). -/
structure PlotData where
  datasourceId : Option String
  x : Option String
  y : Option String
  hue : Hue
  semColumn : Option String
  semPrecomputed : Bool
  filterQuery : Option (List (String × Val))
  hlines : List ℚ
  vlines : List ℚ
  styleLine : Bool
  styleMarker : Bool
  ylim : Option (ℚ × ℚ)
  title : Option String
  errorMarkers : List EMarker
deriving DecidableEq

/-- `PlotTile.get_plot_data`: `None` for an empty tile, otherwise the full
field set, with the title read back from the figure (`get_title() or None`). -/
def getPlotData (t : TileState) (dsId : Option String) : Option PlotData :=
  if t.df.isSome then
    some
      { datasourceId := dsId
        x := t.x
        y := t.y
        hue := t.hue
        semColumn := t.semColumn
        semPrecomputed := t.semPrecomputed
        filterQuery := t.filterQuery
        hlines := t.hlines
        vlines := t.vlines
        styleLine := t.styleLine
        styleMarker := t.styleMarker
        ylim := t.ylim
        title := truthyTitle t.figTitle
        errorMarkers := t.errorMarkers }
  else none

/-- `PlotTile.set_plot_from_data`: reconstructs the tile by calling `set_plot`
with the serialized fields (`xlim=None` — computed, not saved). -/
def setPlotFromData (df : PDf) (d : PlotData) : TileState :=
  setPlot df (d.x.getD "") (d.y.getD "") d.hue d.semColumn d.semPrecomputed d.title
    d.filterQuery none d.ylim (some d.hlines) (some d.vlines) d.styleLine d.styleMarker
    (some d.errorMarkers)

/-! ## Helper lemmas: sorted distinct lists -/

theorem mem_sortedDistinct {κ : Type} [LinearOrder κ] [DecidableEq κ]
    {l : List κ} {a : κ} : a ∈ sortedDistinct l ↔ a ∈ l := by
  unfold sortedDistinct
  rw [(List.perm_insertionSort (· ≤ ·) l.dedup).mem_iff]
  exact List.mem_dedup

theorem sortedDistinct_nodup {κ : Type} [LinearOrder κ] [DecidableEq κ]
    (l : List κ) : (sortedDistinct l).Nodup :=
  ((List.perm_insertionSort (· ≤ ·) l.dedup).nodup_iff).mpr (List.nodup_dedup l)

theorem sortedDistinct_sorted {κ : Type} [LinearOrder κ] [DecidableEq κ]
    (l : List κ) : (sortedDistinct l).Sorted (· ≤ ·) :=
  List.sorted_insertionSort (· ≤ ·) l.dedup

theorem sortedDistinct_sorted_lt {κ : Type} [LinearOrder κ] [DecidableEq κ]
    (l : List κ) : (sortedDistinct l).Sorted (· < ·) :=
  (sortedDistinct_sorted l).lt_of_le (sortedDistinct_nodup l)

theorem sortedDistinct_congr {κ : Type} [LinearOrder κ] [DecidableEq κ]
    {l₁ l₂ : List κ} (h : ∀ a, a ∈ l₁ ↔ a ∈ l₂) :
    sortedDistinct l₁ = sortedDistinct l₂ := by
  apply List.eq_of_perm_of_sorted _ (sortedDistinct_sorted l₁) (sortedDistinct_sorted l₂)
  rw [List.perm_ext_iff_of_nodup (sortedDistinct_nodup l₁) (sortedDistinct_nodup l₂)]
  intro a
  rw [mem_sortedDistinct, mem_sortedDistinct]
  exact h a

theorem sortedDistinct_eq_of_sorted {κ : Type} [LinearOrder κ] [DecidableEq κ]
    {l : List κ} (hs : l.Sorted (· < ·)) : sortedDistinct l = l := by
  apply List.eq_of_perm_of_sorted _ (sortedDistinct_sorted l) (hs.le_of_lt)
  rw [List.perm_ext_iff_of_nodup (sortedDistinct_nodup l) hs.nodup]
  intro a
  exact mem_sortedDistinct

/-! ## Helper lemmas: list minima, maxima, means -/

theorem foldl_min_le_init (l : List ℚ) (a : ℚ) : l.foldl min a ≤ a := by
  induction l generalizing a with
  | nil => exact le_refl a
  | cons b bs ih => exact le_trans (ih (min a b)) (min_le_left a b)

theorem foldl_min_le_of_mem {l : List ℚ} {v : ℚ} (h : v ∈ l) (a : ℚ) :
    l.foldl min a ≤ v := by
  induction l generalizing a with
  | nil => cases h
  | cons b bs ih =>
    rcases List.mem_cons.mp h with h1 | h1
    · subst h1
      exact le_trans (foldl_min_le_init bs (min a v)) (min_le_right a v)
    · exact ih h1 (min a b)

theorem foldl_min_mem {l : List ℚ} (a : ℚ) : l.foldl min a = a ∨ l.foldl min a ∈ l := by
  induction l generalizing a with
  | nil => exact Or.inl rfl
  | cons b bs ih =>
    rcases ih (min a b) with h | h
    · rcases min_cases a b with ⟨he, _⟩ | ⟨he, _⟩
      · exact Or.inl (by rw [List.foldl_cons, h, he])
      · exact Or.inr (by rw [List.foldl_cons, h, he]; exact List.mem_cons_self b bs)
    · exact Or.inr (List.mem_cons_of_mem b h)

theorem listMin_le_of_mem {l : List ℚ} {v : ℚ} (h : v ∈ l) : listMin l ≤ v := by
  cases l with
  | nil => cases h
  | cons a as =>
    rcases List.mem_cons.mp h with h1 | h1
    · subst h1; exact foldl_min_le_init as v
    · exact foldl_min_le_of_mem h1 a

theorem listMin_mem {l : List ℚ} (h : l ≠ []) : listMin l ∈ l := by
  cases l with
  | nil => exact absurd rfl h
  | cons a as =>
    rcases foldl_min_mem (l := as) a with h1 | h1
    · rw [listMin, h1]; exact List.mem_cons_self a as
    · exact List.mem_cons_of_mem a h1

theorem foldl_max_init_le (l : List ℚ) (a : ℚ) : a ≤ l.foldl max a := by
  induction l generalizing a with
  | nil => exact le_refl a
  | cons b bs ih => exact le_trans (le_max_left a b) (ih (max a b))

theorem le_foldl_max_of_mem {l : List ℚ} {v : ℚ} (h : v ∈ l) (a : ℚ) :
    v ≤ l.foldl max a := by
  induction l generalizing a with
  | nil => cases h
  | cons b bs ih =>
    rcases List.mem_cons.mp h with h1 | h1
    · subst h1
      exact le_trans (le_max_right a v) (foldl_max_init_le bs (max a v))
    · exact ih h1 (max a b)

theorem foldl_max_mem {l : List ℚ} (a : ℚ) : l.foldl max a = a ∨ l.foldl max a ∈ l := by
  induction l generalizing a with
  | nil => exact Or.inl rfl
  | cons b bs ih =>
    rcases ih (max a b) with h | h
    · rcases max_cases a b with ⟨he, _⟩ | ⟨he, _⟩
      · exact Or.inl (by rw [List.foldl_cons, h, he])
      · exact Or.inr (by rw [List.foldl_cons, h, he]; exact List.mem_cons_self b bs)
    · exact Or.inr (List.mem_cons_of_mem b h)

theorem le_listMax_of_mem {l : List ℚ} {v : ℚ} (h : v ∈ l) : v ≤ listMax l := by
  cases l with
  | nil => cases h
  | cons a as =>
    rcases List.mem_cons.mp h with h1 | h1
    · subst h1; exact foldl_max_init_le as v
    · exact le_foldl_max_of_mem h1 a

theorem listMax_mem {l : List ℚ} (h : l ≠ []) : listMax l ∈ l := by
  cases l with
  | nil => exact absurd rfl h
  | cons a as =>
    rcases foldl_max_mem (l := as) a with h1 | h1
    · rw [listMax, h1]; exact List.mem_cons_self a as
    · exact List.mem_cons_of_mem a h1

theorem length_cast_pos {l : List ℚ} (hne : l ≠ []) : (0 : ℚ) < l.length := by
  cases l with
  | nil => exact absurd rfl hne
  | cons b bs =>
    simp only [List.length_cons]
    positivity

theorem sum_mul_by_length (l : List ℚ) : l.sum = mean l * l.length := by
  cases l with
  | nil => simp [mean]
  | cons a as =>
    have h : ((a :: as).length : ℚ) ≠ 0 := ne_of_gt (length_cast_pos (by simp))
    rw [mean]
    field_simp

theorem le_mean_of_forall_le {l : List ℚ} {a : ℚ} (hne : l ≠ [])
    (h : ∀ v ∈ l, a ≤ v) : a ≤ mean l := by
  have hn : (0 : ℚ) < l.length := length_cast_pos hne
  have hsum : (l.length : ℚ) * a ≤ l.sum := by
    have h2 := List.card_nsmul_le_sum l a h
    rwa [nsmul_eq_mul] at h2
  rw [mean, le_div_iff₀ hn, mul_comm]
  exact hsum

theorem mean_le_of_forall_le {l : List ℚ} {a : ℚ} (hne : l ≠ [])
    (h : ∀ v ∈ l, v ≤ a) : mean l ≤ a := by
  have hn : (0 : ℚ) < l.length := length_cast_pos hne
  have hsum : l.sum ≤ (l.length : ℚ) * a := by
    have h2 := List.sum_le_card_nsmul l a h
    rwa [nsmul_eq_mul] at h2
  rw [mean, div_le_iff₀ hn, mul_comm]
  exact hsum

theorem listMin_le_mean {l : List ℚ} (hne : l ≠ []) : listMin l ≤ mean l :=
  le_mean_of_forall_le hne (fun _ hv => listMin_le_of_mem hv)

theorem mean_le_listMax {l : List ℚ} (hne : l ≠ []) : mean l ≤ listMax l :=
  mean_le_of_forall_le hne (fun _ hv => le_listMax_of_mem hv)

/-! ## Helper lemmas: the SEM band never leaves the raw range
(`sem^2 = s^2/n ≤ (max - mean)^2` and symmetrically for the minimum) -/

theorem sum_map_sub_const (l : List ℚ) (c : ℚ) :
    (l.map (fun v => v - c)).sum = l.sum - l.length * c := by
  induction l with
  | nil => simp
  | cons a as ih =>
    simp only [List.map_cons, List.sum_cons, ih, List.length_cons]
    push_cast
    ring

theorem sum_dev_eq_zero (l : List ℚ) :
    (l.map (fun v => v - mean l)).sum = 0 := by
  rw [sum_map_sub_const, sum_mul_by_length l]
  ring

theorem sum_map_sub_fun (l : List ℚ) (f g : ℚ → ℚ) :
    (l.map (fun v => f v - g v)).sum = (l.map f).sum - (l.map g).sum := by
  induction l with
  | nil => simp
  | cons a as ih =>
    simp only [List.map_cons, List.sum_cons, ih]
    ring

theorem sum_sq_le_sq_sum {l : List ℚ} (h : ∀ v ∈ l, 0 ≤ v) :
    (l.map (fun v => v ^ 2)).sum ≤ l.sum ^ 2 := by
  induction l with
  | nil => simp
  | cons a as ih =>
    have ha : 0 ≤ a := h a (List.mem_cons_self a as)
    have has : ∀ v ∈ as, 0 ≤ v := fun v hv => h v (List.mem_cons_of_mem a hv)
    have hsum : 0 ≤ as.sum := List.sum_nonneg has
    have ih2 := ih has
    simp only [List.map_cons, List.sum_cons]
    nlinarith [mul_nonneg ha hsum]

theorem pos_part_sq_add_neg_part_sq (a : ℚ) :
    max a 0 ^ 2 + max (-a) 0 ^ 2 = a ^ 2 := by
  rcases le_total a 0 with h | h
  · rw [max_eq_right h, max_eq_left (by linarith : (0 : ℚ) ≤ -a)]
    ring
  · rw [max_eq_left h, max_eq_right (by linarith : (-a : ℚ) ≤ 0)]
    ring

theorem pos_part_sub_neg_part (a : ℚ) : max a 0 - max (-a) 0 = a := by
  rcases le_total a 0 with h | h
  · rw [max_eq_right h, max_eq_left (by linarith : (0 : ℚ) ≤ -a)]
    ring
  · rw [max_eq_left h, max_eq_right (by linarith : (-a : ℚ) ≤ 0)]
    ring

theorem sum_map_add_fun (l : List ℚ) (f g : ℚ → ℚ) :
    (l.map (fun v => f v + g v)).sum = (l.map f).sum + (l.map g).sum := by
  induction l with
  | nil => simp
  | cons a as ih =>
    simp only [List.map_cons, List.sum_cons, ih]
    ring

theorem sum_sq_dev_le_max {l : List ℚ} (hne : l ≠ []) :
    (l.map (fun v => (v - mean l) ^ 2)).sum ≤
      ((l.length : ℚ) * ((l.length : ℚ) - 1)) * (listMax l - mean l) ^ 2 := by
  set m := mean l with hm
  set d := listMax l - m with hd
  have hd0 : 0 ≤ d := by
    rw [hd]
    have := mean_le_listMax hne
    linarith
  set p := fun v : ℚ => max (v - m) 0 with hp
  set q := fun v : ℚ => max (m - v) 0 with hq
  have hpb : ∀ v ∈ l, p v ≤ d := by
    intro v hv
    exact max_le (by have := le_listMax_of_mem hv; linarith) hd0
  have hp0 : ∀ v ∈ l, 0 ≤ p v := fun v _ => le_max_right _ _
  have hq0 : ∀ v ∈ l, 0 ≤ q v := fun v _ => le_max_right _ _
  -- the positive and negative deviation masses coincide
  have hST : (l.map p).sum = (l.map q).sum := by
    have h1 : (l.map (fun v => p v - q v)).sum = (l.map p).sum - (l.map q).sum :=
      sum_map_sub_fun l p q
    have h2 : (l.map (fun v => p v - q v)).sum = 0 := by
      have h3 : (l.map (fun v => p v - q v)) = l.map (fun v => v - m) := by
        apply List.map_congr_left
        intro v _
        have := pos_part_sub_neg_part (v - m)
        simpa [hp, hq, neg_sub] using this
      rw [h3, hm, sum_dev_eq_zero]
    linarith
  -- the positive mass is carried by at most (n-1) elements, each at most d
  have hSbound : (l.map p).sum ≤ ((l.length : ℚ) - 1) * d := by
    have hmem : listMin l ∈ l := listMin_mem hne
    have hperm : List.Perm l (listMin l :: l.erase (listMin l)) := List.perm_cons_erase hmem
    have hpmin : p (listMin l) = 0 := by
      have h1 : listMin l ≤ m := listMin_le_mean hne
      rw [hp]
      simp only []
      exact max_eq_right (by linarith)
    have hsum2 : (l.map p).sum = ((l.erase (listMin l)).map p).sum := by
      rw [(hperm.map p).sum_eq]
      simp [hpmin]
    have herlen : (l.erase (listMin l)).length = l.length - 1 :=
      List.length_erase_of_mem hmem
    have hbound2 : ((l.erase (listMin l)).map p).sum ≤ ((l.erase (listMin l)).length : ℚ) * d := by
      have h4 := List.sum_le_card_nsmul ((l.erase (listMin l)).map p) d
        (by
          intro v hv
          rcases List.mem_map.mp hv with ⟨w, hw, rfl⟩
          exact hpb w ((l.erase_sublist (listMin l)).mem hw))
      rwa [List.length_map, nsmul_eq_mul] at h4
    have hlen1 : (1 : ℚ) ≤ l.length := by
      have := length_cast_pos hne
      exact_mod_cast Nat.one_le_iff_ne_zero.mpr (by
        intro hc
        rw [List.length_eq_zero] at hc
        exact hne hc)
    calc (l.map p).sum = ((l.erase (listMin l)).map p).sum := hsum2
      _ ≤ ((l.erase (listMin l)).length : ℚ) * d := hbound2
      _ = ((l.length : ℚ) - 1) * d := by
          rw [herlen]
          have : ((l.length - 1 : ℕ) : ℚ) = (l.length : ℚ) - 1 := by
            have hn : 1 ≤ l.length := by exact_mod_cast hlen1
            push_cast [hn]
            ring
          rw [this]
  have hS0 : 0 ≤ (l.map p).sum := List.sum_nonneg (by
    intro v hv
    rcases List.mem_map.mp hv with ⟨w, hw, rfl⟩
    exact hp0 w hw)
  -- sum of squared positive parts is at most d * S
  have hPsq : (l.map (fun v => p v ^ 2)).sum ≤ d * (l.map p).sum := by
    have h5 : (l.map (fun v => p v ^ 2)).sum ≤ (l.map (fun v => d * p v)).sum := by
      apply List.sum_le_sum
      intro v hv
      have := hpb v hv
      have := hp0 v hv
      nlinarith
    calc (l.map (fun v => p v ^ 2)).sum ≤ (l.map (fun v => d * p v)).sum := h5
      _ = d * (l.map p).sum := by
          rw [← List.sum_map_mul_left]
  -- sum of squared negative parts is at most T^2 = S^2
  have hQsq : (l.map (fun v => q v ^ 2)).sum ≤ (l.map p).sum ^ 2 := by
    have h6 : (l.map (fun v => q v ^ 2)).sum = ((l.map q).map (fun v => v ^ 2)).sum := by
      rw [List.map_map]
      rfl
    rw [h6, hST]
    apply sum_sq_le_sq_sum
    intro v hv
    rcases List.mem_map.mp hv with ⟨w, hw, rfl⟩
    exact hq0 w hw
  -- rebuild the full sum of squared deviations
  have hsplit : (l.map (fun v => (v - m) ^ 2)).sum =
      (l.map (fun v => p v ^ 2)).sum + (l.map (fun v => q v ^ 2)).sum := by
    have h7 : ∀ v ∈ l, (v - m) ^ 2 = p v ^ 2 + q v ^ 2 := by
      intro v _
      have := pos_part_sq_add_neg_part_sq (v - m)
      simp only [hp, hq, neg_sub] at *
      linarith
    calc (l.map (fun v => (v - m) ^ 2)).sum
        = (l.map (fun v => p v ^ 2 + q v ^ 2)).sum := by
          apply congrArg
          exact List.map_congr_left h7
      _ = (l.map (fun v => p v ^ 2)).sum + (l.map (fun v => q v ^ 2)).sum :=
          sum_map_add_fun l (fun v => p v ^ 2) (fun v => q v ^ 2)
  rw [hsplit]
  set S := (l.map p).sum with hSdef
  have hn1 : (1 : ℚ) ≤ l.length := by
    have h8 := length_cast_pos hne
    have h9 : l.length ≠ 0 := by
      intro hc
      rw [List.length_eq_zero] at hc
      exact hne hc
    exact_mod_cast Nat.one_le_iff_ne_zero.mpr h9
  nlinarith [hPsq, hQsq, hSbound, hS0, hd0, mul_le_mul_of_nonneg_left hSbound hd0,
    mul_self_le_mul_self hS0 hSbound]

theorem semSq_le_sq_max {l : List ℚ} {s : ℚ} (h : semSq l = some s) :
    s ≤ (listMax l - mean l) ^ 2 := by
  unfold semSq at h
  by_cases hlen : 2 ≤ l.length
  · rw [if_pos hlen] at h
    have hne : l ≠ [] := by
      intro hc
      rw [hc] at hlen
      exact absurd hlen (by simp)
    have hn1 : (1 : ℚ) < l.length := by exact_mod_cast hlen
    have hkey := sum_sq_dev_le_max hne
    have hs : s = ((l.map (fun v => (v - mean l) ^ 2)).sum / ((l.length : ℚ) - 1)) /
        (l.length : ℚ) := (Option.some.inj h).symm
    rw [hs, div_div]
    rw [div_le_iff₀ (by nlinarith : (0 : ℚ) < ((l.length : ℚ) - 1) * l.length)]
    calc (l.map (fun v => (v - mean l) ^ 2)).sum
        ≤ ((l.length : ℚ) * ((l.length : ℚ) - 1)) * (listMax l - mean l) ^ 2 := hkey
      _ = (listMax l - mean l) ^ 2 * (((l.length : ℚ) - 1) * l.length) := by ring
  · rw [if_neg hlen] at h
    cases h

theorem mean_map_neg (l : List ℚ) : mean (l.map (fun v => -v)) = -mean l := by
  have hsum : (l.map (fun v => -v)).sum = -l.sum := by
    induction l with
    | nil => simp
    | cons a as ih =>
      simp only [List.map_cons, List.sum_cons, ih]
      ring
  rw [mean, mean, hsum, List.length_map]
  ring

theorem foldl_max_map_neg (l : List ℚ) (a : ℚ) :
    (l.map (fun v => -v)).foldl max (-a) = -(l.foldl min a) := by
  induction l generalizing a with
  | nil => rfl
  | cons b bs ih =>
    simp only [List.map_cons, List.foldl_cons]
    rw [max_neg_neg, ih]

theorem listMax_map_neg (l : List ℚ) : listMax (l.map (fun v => -v)) = -listMin l := by
  cases l with
  | nil => simp [listMax, listMin]
  | cons a as =>
    simp only [List.map_cons, listMax, listMin]
    exact foldl_max_map_neg as a

theorem semSq_map_neg (l : List ℚ) : semSq (l.map (fun v => -v)) = semSq l := by
  unfold semSq
  rw [List.length_map]
  by_cases hlen : 2 ≤ l.length
  · rw [if_pos hlen, if_pos hlen]
    have h1 : ((l.map (fun v => -v)).map (fun v => (v - mean (l.map (fun w => -w))) ^ 2)).sum
        = (l.map (fun v => (v - mean l) ^ 2)).sum := by
      rw [mean_map_neg, List.map_map]
      apply congrArg
      apply List.map_congr_left
      intro v _
      simp only [Function.comp_apply]
      ring
    rw [h1]
  · rw [if_neg hlen, if_neg hlen]

theorem semSq_le_sq_min {l : List ℚ} {s : ℚ} (h : semSq l = some s) :
    s ≤ (mean l - listMin l) ^ 2 := by
  have h2 : semSq (l.map (fun v => -v)) = some s := by rw [semSq_map_neg]; exact h
  have h3 := semSq_le_sq_max h2
  rw [listMax_map_neg, mean_map_neg] at h3
  calc s ≤ (-listMin l - -mean l) ^ 2 := h3
    _ = (mean l - listMin l) ^ 2 := by ring

/-! ## Helper lemmas: Cartesian products (`expand_groups`) -/

/-- Strict lexicographic order on equal-length value tuples. -/
def listLexLt {κ : Type} [LT κ] : List κ → List κ → Prop
  | a :: as, b :: bs => a < b ∨ (a = b ∧ listLexLt as bs)
  | _, _ => False

theorem cartProd_length {κ : Type} (ls : List (List κ)) :
    (cartProd ls).length = (ls.map List.length).prod := by
  induction ls with
  | nil => rfl
  | cons l rest ih =>
    simp only [cartProd, List.map_cons, List.prod_cons, ← ih]
    induction l with
    | nil => simp
    | cons v vs ihl =>
      simp only [List.flatMap_cons, List.length_append, List.length_map, ihl,
        List.length_cons]
      ring

theorem mem_cartProd {κ : Type} {ls : List (List κ)} {vs : List κ} :
    vs ∈ cartProd ls ↔ List.Forall₂ (· ∈ ·) vs ls := by
  induction ls generalizing vs with
  | nil =>
    simp only [cartProd, List.mem_singleton]
    constructor
    · intro h
      subst h
      exact List.Forall₂.nil
    · intro h
      cases h
      rfl
  | cons l rest ih =>
    simp only [cartProd, List.mem_flatMap, List.mem_map]
    constructor
    · rintro ⟨v, hv, ws, hws, rfl⟩
      exact List.Forall₂.cons hv (ih.mp hws)
    · intro h
      cases h with
      | cons hv hws => exact ⟨_, hv, _, ih.mpr hws, rfl⟩

theorem pairwise_flatMap_cons {κ : Type} [LinearOrder κ]
    {l : List κ} (hl : l.Pairwise (· < ·))
    {tails : List (List κ)} (htails : tails.Pairwise listLexLt) :
    (l.flatMap (fun v => tails.map (v :: ·))).Pairwise listLexLt := by
  induction l with
  | nil => exact List.Pairwise.nil
  | cons v l ih =>
    rcases List.pairwise_cons.mp hl with ⟨hvl, hl2⟩
    simp only [List.flatMap_cons]
    rw [List.pairwise_append]
    refine ⟨?_, ih hl2, ?_⟩
    · rw [List.pairwise_map]
      exact htails.imp (fun h => Or.inr ⟨rfl, h⟩)
    · intro a ha b hb
      rcases List.mem_map.mp ha with ⟨ta, _, rfl⟩
      rcases List.mem_flatMap.mp hb with ⟨w, hw, hb2⟩
      rcases List.mem_map.mp hb2 with ⟨tb, _, rfl⟩
      exact Or.inl (hvl w hw)

theorem cartProd_pairwise {κ : Type} [LinearOrder κ] (ls : List (List κ))
    (h : ∀ l ∈ ls, l.Pairwise (· < ·)) :
    (cartProd ls).Pairwise listLexLt := by
  induction ls with
  | nil => simp [cartProd]
  | cons l rest ih =>
    exact pairwise_flatMap_cons (h l (List.mem_cons_self l rest))
      (ih (fun t ht => h t (List.mem_cons_of_mem l ht)))

theorem map_snd_zip_eq {α β : Type} (l1 : List α) (l2 : List β)
    (h : l1.length = l2.length) : (l1.zip l2).map Prod.snd = l2 := by
  induction l1 generalizing l2 with
  | nil =>
    cases l2 with
    | nil => rfl
    | cons b bs => cases h
  | cons a as ih =>
    cases l2 with
    | nil => cases h
    | cons b bs =>
      simp only [List.zip_cons_cons, List.map_cons]
      rw [ih bs (by simpa using h)]

/-- C5: `expand_groups` returns the single empty filter for an empty column
list, fails precisely when the Cartesian product exceeds 50 combinations, and
otherwise returns exactly `n1 * ... * nk` filter mappings — one per element of
the Cartesian product of the per-column sorted distinct non-missing values, in
the lexicographic order induced by the sorted per-column value lists and the
input column order. -/
theorem expand_groups_spec (df : PDf) (groups : List String) :
    (expandGroups df [] = .ok [[]]) ∧
    ((∃ e, expandGroups df groups = .error e) ↔
      50 < ((groupUniques df groups).map List.length).prod) ∧
    (∀ combos, expandGroups df groups = .ok combos → groups ≠ [] →
      combos.length = ((groupUniques df groups).map List.length).prod ∧
      (∀ fq, fq ∈ combos ↔
        ∃ vals, List.Forall₂ (· ∈ ·) vals (groupUniques df groups) ∧
          fq = groups.zip vals) ∧
      combos.Pairwise (fun f1 f2 => listLexLt (f1.map Prod.snd) (f2.map Prod.snd))) := by
  have hlen : ∀ gs : List String,
      ((cartProd (groupUniques df gs)).map (gs.zip ·)).length =
        ((groupUniques df gs).map List.length).prod := by
    intro gs
    rw [List.length_map, cartProd_length]
  refine ⟨rfl, ?_, ?_⟩
  · by_cases hg : groups = []
    · subst hg
      simp only [expandGroups, if_pos rfl]
      constructor
      · rintro ⟨e, he⟩
        cases he
      · intro h
        simp only [groupUniques, List.map_nil, List.prod_nil] at h
        exact absurd h (by norm_num)
    · simp only [expandGroups, if_neg hg]
      by_cases h50 : 50 < ((cartProd (groupUniques df groups)).map (groups.zip ·)).length
      · rw [if_pos h50]
        constructor
        · intro _
          rw [← hlen groups]
          exact h50
        · intro _
          exact ⟨_, rfl⟩
      · rw [if_neg h50]
        constructor
        · rintro ⟨e, he⟩
          cases he
        · intro h
          rw [← hlen groups] at h
          exact absurd h h50
  · intro combos hok hg
    rw [expandGroups, if_neg hg] at hok
    by_cases h50 : 50 < ((cartProd (groupUniques df groups)).map (groups.zip ·)).length
    · rw [if_pos h50] at hok
      cases hok
    · rw [if_neg h50] at hok
      have hc : combos = (cartProd (groupUniques df groups)).map (groups.zip ·) :=
        (Except.ok.inj hok).symm
      subst hc
      refine ⟨hlen groups, ?_, ?_⟩
      · intro fq
        simp only [List.mem_map]
        constructor
        · rintro ⟨vals, hv, rfl⟩
          exact ⟨vals, mem_cartProd.mp hv, rfl⟩
        · rintro ⟨vals, hv, rfl⟩
          exact ⟨vals, mem_cartProd.mpr hv, rfl⟩
      · rw [List.pairwise_map]
        have hvals_len : ∀ vals ∈ cartProd (groupUniques df groups),
            groups.length = vals.length := by
          intro vals hv
          have h2 := (mem_cartProd.mp hv).length_eq
          rw [h2, groupUniques, List.length_map]
        have hpw := cartProd_pairwise (groupUniques df groups)
          (fun l hl => by
            rcases List.mem_map.mp hl with ⟨g, _, rfl⟩
            exact sortedDistinct_sorted_lt _)
        refine List.Pairwise.imp_of_mem ?_ hpw
        intro v1 v2 h1 h2 hlt
        rw [map_snd_zip_eq groups v1 (hvals_len v1 h1),
          map_snd_zip_eq groups v2 (hvals_len v2 h2)]
        exact hlt

/-- Witness for C5 at a concrete dataframe: two grouping columns with 2 and 2
distinct values give 4 combinations. -/
theorem expand_groups_spec_witness :
    (expandGroups (PDf.mk ["a", "b"]
        [[("a", Val.num 1), ("b", Val.str "x")],
         [("a", Val.num 1), ("b", Val.str "y")],
         [("a", Val.num 2), ("b", Val.str "x")]]) ["a", "b"] =
      .ok [[("a", Val.num 1), ("b", Val.str "x")], [("a", Val.num 1), ("b", Val.str "y")],
           [("a", Val.num 2), ("b", Val.str "x")], [("a", Val.num 2), ("b", Val.str "y")]]) ∧
    (["a", "b"] : List String) ≠ [] ∧
    ([[("a", Val.num 1), ("b", Val.str "x")], [("a", Val.num 1), ("b", Val.str "y")],
      [("a", Val.num 2), ("b", Val.str "x")], [("a", Val.num 2), ("b", Val.str "y")]].length =
      ((groupUniques (PDf.mk ["a", "b"]
        [[("a", Val.num 1), ("b", Val.str "x")],
         [("a", Val.num 1), ("b", Val.str "y")],
         [("a", Val.num 2), ("b", Val.str "x")]]) ["a", "b"]).map List.length).prod) := by
  refine ⟨by with_unfolding_all rfl, by decide, ?_⟩
  exact ((expand_groups_spec (PDf.mk ["a", "b"]
        [[("a", Val.num 1), ("b", Val.str "x")],
         [("a", Val.num 1), ("b", Val.str "y")],
         [("a", Val.num 2), ("b", Val.str "x")]]) ["a", "b"]).2.2 _
    (by with_unfolding_all rfl) (by decide)).1

/-! ## Helper lemmas: group slices and numeric columns -/

theorem filterMap_length_eq {α β : Type} {l : List α} {f : α → Option β}
    (h : ∀ a ∈ l, (f a).isSome) : (l.filterMap f).length = l.length := by
  induction l with
  | nil => rfl
  | cons a as ih =>
    have ha := h a (List.mem_cons_self a as)
    rcases Option.isSome_iff_exists.mp ha with ⟨b, hb⟩
    rw [List.filterMap_cons, hb, List.length_cons,
      ih (fun a2 ha2 => h a2 (List.mem_cons_of_mem a ha2))]
    rfl

theorem groupSlice_sublist (rows : List PRow) (c : String) (v : Val) :
    (groupSlice rows c v).Sublist rows :=
  List.filter_sublist rows

theorem mem_groupSlice {rows : List PRow} {c : String} {v : Val} {r : PRow} :
    r ∈ groupSlice rows c v ↔ r ∈ rows ∧ cellV r c = some v := by
  unfold groupSlice
  rw [List.mem_filter]
  simp only [decide_eq_true_eq]

theorem mem_groupKeys {rows : List PRow} {c : String} {v : Val} :
    v ∈ groupKeys rows c ↔ ∃ r ∈ rows, cellV r c = some v := by
  unfold groupKeys
  rw [mem_sortedDistinct, List.mem_filterMap]

theorem groupSlice_ne_nil {rows : List PRow} {c : String} {v : Val}
    (h : v ∈ groupKeys rows c) : groupSlice rows c v ≠ [] := by
  rcases mem_groupKeys.mp h with ⟨r, hr, hcell⟩
  intro hc
  have h2 : r ∈ groupSlice rows c v := mem_groupSlice.mpr ⟨hr, hcell⟩
  rw [hc] at h2
  cases h2

theorem colNums_length_eq {rows : List PRow} {c : String}
    (h : ∀ r ∈ rows, ∃ q : ℚ, cellV r c = some (Val.num q)) :
    (colNums rows c).length = rows.length := by
  apply filterMap_length_eq
  intro r hr
  rcases h r hr with ⟨q, hq⟩
  rw [hq]
  rfl

theorem colNums_ne_nil {rows : List PRow} {c : String} (hrows : rows ≠ [])
    (h : ∀ r ∈ rows, ∃ q : ℚ, cellV r c = some (Val.num q)) :
    colNums rows c ≠ [] := by
  intro hc
  have h2 := colNums_length_eq h
  rw [hc] at h2
  cases rows with
  | nil => exact hrows rfl
  | cons a as => cases h2

theorem colNums_sublist_mono {rows1 rows2 : List PRow} {c : String}
    (h : rows1.Sublist rows2) : (colNums rows1 c).Sublist (colNums rows2 c) :=
  List.Sublist.filterMap _ h

/-- C3: no-SEM aggregation produces exactly one output point per distinct x
value (ascending in x, no duplicates), and at each x the output y times the
number of rows sharing that x equals the sum of their y values — i.e. y is the
arithmetic mean of all y values at that x (stated multiplicatively to stay in
exact arithmetic; the row count is non-zero by the last conjunct). -/
theorem agg_mean_by_x_spec (rows : List PRow) (x y : String)
    (hy : ∀ r ∈ rows, ∃ q : ℚ, cellV r y = some (Val.num q)) :
    ((aggMeanByX rows x y).map Prod.fst).Sorted (· < ·) ∧
    (∀ xv, xv ∈ (aggMeanByX rows x y).map Prod.fst ↔ ∃ r ∈ rows, cellV r x = some xv) ∧
    (∀ p ∈ aggMeanByX rows x y,
      groupSlice rows x p.1 ≠ [] ∧
      p.2 * ((groupSlice rows x p.1).length : ℚ) =
        (colNums (groupSlice rows x p.1) y).sum ∧
      (colNums (groupSlice rows x p.1) y).length = (groupSlice rows x p.1).length) := by
  have hkeys : (aggMeanByX rows x y).map Prod.fst = groupKeys rows x := by
    unfold aggMeanByX
    rw [List.map_map]
    exact List.map_id ((groupKeys rows x))
  refine ⟨?_, ?_, ?_⟩
  · rw [hkeys]
    exact sortedDistinct_sorted_lt _
  · intro xv
    rw [hkeys]
    exact mem_groupKeys
  · intro p hp
    rcases List.mem_map.mp hp with ⟨xv, hxv, rfl⟩
    have hymem : ∀ r ∈ groupSlice rows x xv, ∃ q : ℚ, cellV r y = some (Val.num q) :=
      fun r hr => hy r ((groupSlice_sublist rows x xv).mem hr)
    have hne : groupSlice rows x xv ≠ [] := groupSlice_ne_nil hxv
    have hlen : (colNums (groupSlice rows x xv) y).length = (groupSlice rows x xv).length :=
      colNums_length_eq hymem
    refine ⟨hne, ?_, hlen⟩
    have h2 := sum_mul_by_length (colNums (groupSlice rows x xv) y)
    rw [hlen] at h2
    exact h2.symm

/-- Witness for C3 at the specification's own example:
x = [1,1,1,2,2,3], y = [10,20,30,40,60,100] aggregates to
(1, 20), (2, 50), (3, 100). -/
theorem agg_mean_by_x_spec_witness :
    (∀ r ∈ ([[("x", Val.num 1), ("y", Val.num 10)], [("x", Val.num 1), ("y", Val.num 20)],
             [("x", Val.num 1), ("y", Val.num 30)], [("x", Val.num 2), ("y", Val.num 40)],
             [("x", Val.num 2), ("y", Val.num 60)], [("x", Val.num 3), ("y", Val.num 100)]] :
        List PRow), ∃ q : ℚ, cellV r "y" = some (Val.num q)) ∧
    (aggMeanByX [[("x", Val.num 1), ("y", Val.num 10)], [("x", Val.num 1), ("y", Val.num 20)],
        [("x", Val.num 1), ("y", Val.num 30)], [("x", Val.num 2), ("y", Val.num 40)],
        [("x", Val.num 2), ("y", Val.num 60)], [("x", Val.num 3), ("y", Val.num 100)]] "x" "y" =
      [(Val.num 1, 20), (Val.num 2, 50), (Val.num 3, 100)]) ∧
    (∀ xv, xv ∈ (aggMeanByX [[("x", Val.num 1), ("y", Val.num 10)], [("x", Val.num 1), ("y", Val.num 20)],
        [("x", Val.num 1), ("y", Val.num 30)], [("x", Val.num 2), ("y", Val.num 40)],
        [("x", Val.num 2), ("y", Val.num 60)], [("x", Val.num 3), ("y", Val.num 100)]] "x" "y").map
          Prod.fst ↔
      ∃ r ∈ ([[("x", Val.num 1), ("y", Val.num 10)], [("x", Val.num 1), ("y", Val.num 20)],
             [("x", Val.num 1), ("y", Val.num 30)], [("x", Val.num 2), ("y", Val.num 40)],
             [("x", Val.num 2), ("y", Val.num 60)], [("x", Val.num 3), ("y", Val.num 100)]] :
        List PRow), cellV r "x" = some xv) := by
  have hy : ∀ r ∈ ([[("x", Val.num 1), ("y", Val.num 10)], [("x", Val.num 1), ("y", Val.num 20)],
             [("x", Val.num 1), ("y", Val.num 30)], [("x", Val.num 2), ("y", Val.num 40)],
             [("x", Val.num 2), ("y", Val.num 60)], [("x", Val.num 3), ("y", Val.num 100)]] :
        List PRow), ∃ q : ℚ, cellV r "y" = some (Val.num q) := by
    intro r hr
    fin_cases hr <;> exact ⟨_, rfl⟩
  exact ⟨hy, by with_unfolding_all decide, (agg_mean_by_x_spec _ "x" "y" hy).2.1⟩

/-! ## Helper lemmas: error marker classification and stacking -/

theorem classifyMarkers_fst (ms : List EMarker) :
    (classifyMarkers ms).1 = ms.filter (fun m => m.xerr.isSome) := by
  induction ms with
  | nil => rfl
  | cons m rest ih =>
    simp only [classifyMarkers, List.filter_cons]
    cases hx : m.xerr with
    | some v => simp [hx, ih]
    | none =>
      cases hy : m.yerr with
      | some w => simp [hx, hy, ih]
      | none => simp [hx, hy, ih]

theorem classifyMarkers_snd (ms : List EMarker) :
    (classifyMarkers ms).2 = ms.filter (fun m => m.xerr.isNone && m.yerr.isSome) := by
  induction ms with
  | nil => rfl
  | cons m rest ih =>
    simp only [classifyMarkers, List.filter_cons]
    cases hx : m.xerr with
    | some v => simp [hx, ih]
    | none =>
      cases hy : m.yerr with
      | some w => simp [hx, hy, ih]
      | none => simp [hx, hy, ih]

theorem stackMap_length {α β : Type} (f : ℕ → α → β) (j : ℕ) (l : List α) :
    (stackMap f j l).length = l.length := by
  induction l generalizing j with
  | nil => rfl
  | cons a as ih =>
    simp only [stackMap, List.length_cons, ih]

theorem stackMap_getElem? {α β : Type} (f : ℕ → α → β) (j : ℕ) (l : List α) (i : ℕ) :
    (stackMap f j l)[i]? = l[i]?.map (f (j + i)) := by
  induction l generalizing j i with
  | nil => simp [stackMap]
  | cons a as ih =>
    cases i with
    | zero => simp [stackMap]
    | succ n =>
      simp only [stackMap, List.getElem?_cons_succ, ih (j + 1) n]
      have : j + 1 + n = j + (n + 1) := by omega
      rw [this]

/-- C8: both overlay renderers partition the marker list into the x-error bucket
(`xerr` non-null, regardless of `yerr`) and the y-error bucket (`xerr` null,
`yerr` non-null), preserving input order (`filter`); the i-th bucket entry is
drawn with its explicit coordinate when present and otherwise auto-stacked at
`limit_max - (0.05 + i * 0.08) * range` on the free axis; the x-error drawn
calls precede the y-error ones. -/
theorem error_marker_overlay_spec (ms : List EMarker) (xlim ylim : ℚ × ℚ) :
    ((classifyMarkers ms).1 = ms.filter (fun m => m.xerr.isSome) ∧
     (classifyMarkers ms).2 = ms.filter (fun m => m.xerr.isNone && m.yerr.isSome)) ∧
    (∀ (i : ℕ) (m : EMarker), (classifyMarkers ms).1[i]? = some m →
      (renderMarkersLive ms xlim ylim)[i]? = some
        (DrawnMarker.mk m.x (some (m.y.getD (autoStackPos ylim i))) (m.xerr.getD 0)
          true "v" (m.color.getD "red") m.label) ∧
      (renderMarkersExport ms xlim ylim)[i]? = some
        (DrawnMarker.mk m.x (some (m.y.getD (autoStackPos ylim i))) (m.xerr.getD 0)
          true (m.marker.getD "v") (m.color.getD "red") m.label)) ∧
    (∀ (i : ℕ) (m : EMarker), (classifyMarkers ms).2[i]? = some m →
      (renderMarkersLive ms xlim ylim)[(classifyMarkers ms).1.length + i]? = some
        (DrawnMarker.mk (some (m.x.getD (autoStackPos xlim i))) m.y (m.yerr.getD 0)
          false "v" (m.color.getD "red") m.label) ∧
      (renderMarkersExport ms xlim ylim)[(classifyMarkers ms).1.length + i]? = some
        (DrawnMarker.mk (some (m.x.getD (autoStackPos xlim i))) m.y (m.yerr.getD 0)
          false (m.marker.getD "v") (m.color.getD "red") m.label)) := by
  refine ⟨⟨classifyMarkers_fst ms, classifyMarkers_snd ms⟩, ?_, ?_⟩
  · intro i m hm
    have hi : i < (classifyMarkers ms).1.length := by
      by_contra hge
      rw [List.getElem?_eq_none (by omega)] at hm
      cases hm
    constructor
    · rw [renderMarkersLive, List.getElem?_append, stackMap_length,
        if_pos hi, stackMap_getElem?, hm]
      simp
    · rw [renderMarkersExport, List.getElem?_append, stackMap_length,
        if_pos hi, stackMap_getElem?, hm]
      simp
  · intro i m hm
    have hsub : ∀ n : ℕ, n + i - n = i := fun n => by omega
    constructor
    · rw [renderMarkersLive, List.getElem?_append, stackMap_length,
        if_neg (by omega), hsub, stackMap_getElem?, hm]
      simp
    · rw [renderMarkersExport, List.getElem?_append, stackMap_length,
        if_neg (by omega), hsub, stackMap_getElem?, hm]
      simp

/-- Witness for C8: two x-error markers (the second with an explicit y) and one
y-error marker, on view ranges x in [0, 10], y in [0, 2]. -/
theorem error_marker_overlay_spec_witness :
    ((classifyMarkers [{ x := some 1, xerr := some (1/2) : EMarker },
        { x := some 2, y := some (3/2), xerr := some 1, marker := some "o" : EMarker },
        { y := some 1, yerr := some (1/10) : EMarker }]).1[1]? =
      some { x := some 2, y := some (3/2), xerr := some 1, marker := some "o" : EMarker }) ∧
    (renderMarkersLive [{ x := some 1, xerr := some (1/2) : EMarker },
        { x := some 2, y := some (3/2), xerr := some 1, marker := some "o" : EMarker },
        { y := some 1, yerr := some (1/10) : EMarker }] (0, 10) (0, 2))[1]? = some
      { x := some 2
        y := some (((3 : ℚ)/2 : ℚ))
        err := 1
        horiz := true
        fmt := "v"
        color := "red"
        label := none } := by
  refine ⟨by with_unfolding_all decide, ?_⟩
  have h := ((error_marker_overlay_spec [{ x := some 1, xerr := some (1/2) : EMarker },
        { x := some 2, y := some (3/2), xerr := some 1, marker := some "o" : EMarker },
        { y := some 1, yerr := some (1/10) : EMarker }] (0, 10) (0, 2)).2.1 1
      { x := some 2, y := some (3/2), xerr := some 1, marker := some "o" : EMarker }
      (by with_unfolding_all decide)).1
  exact h

/-- C9: reconstructing a tile from its serialized spec
(`set_plot_from_data` applied to the output of `get_plot_data`) restores the
identical stored field set — x, y, hue, sem column and mode, filter, reference
lines, style flags, y-limits, title and error markers; in particular a
multi-column hue list survives as a list. -/
theorem tile_round_trip_spec (df df2 : PDf) (x y : String) (hue : Hue)
    (semColumn : Option String) (semPrecomputed : Bool) (title : Option String)
    (filterQuery : Option (List (String × Val))) (xlim ylim : Option (ℚ × ℚ))
    (hlines vlines : Option (List ℚ)) (styleLine styleMarker : Bool)
    (errorMarkers : Option (List EMarker)) (dsId : Option String) (d : PlotData)
    (hser : getPlotData (setPlot df x y hue semColumn semPrecomputed title filterQuery
      xlim ylim hlines vlines styleLine styleMarker errorMarkers) dsId = some d) :
    let t := setPlot df x y hue semColumn semPrecomputed title filterQuery
      xlim ylim hlines vlines styleLine styleMarker errorMarkers
    let t2 := setPlotFromData df2 d
    t2.x = t.x ∧ t2.y = t.y ∧ t2.hue = t.hue ∧
    t2.semColumn = t.semColumn ∧ t2.semPrecomputed = t.semPrecomputed ∧
    t2.filterQuery = t.filterQuery ∧ t2.hlines = t.hlines ∧ t2.vlines = t.vlines ∧
    t2.styleLine = t.styleLine ∧ t2.styleMarker = t.styleMarker ∧
    t2.ylim = t.ylim ∧ t2.errorMarkers = t.errorMarkers ∧
    t2.figTitle = t.figTitle ∧
    (∀ cs, hue = Hue.multi cs → t2.hue = Hue.multi cs) := by
  intro t t2
  have hd : d = PlotData.mk dsId t.x t.y t.hue t.semColumn t.semPrecomputed
      t.filterQuery t.hlines t.vlines t.styleLine t.styleMarker t.ylim
      (truthyTitle t.figTitle) t.errorMarkers := by
    have h2 : getPlotData t dsId = some d := hser
    rw [getPlotData] at h2
    have hdf : t.df.isSome = true := rfl
    rw [if_pos hdf] at h2
    exact (Option.some.inj h2).symm
  have htitle : truthyTitle (truthyTitle t.figTitle) = t.figTitle := by
    show truthyTitle (truthyTitle (truthyTitle title)) = truthyTitle title
    cases title with
    | none => rfl
    | some s =>
      by_cases hs : s = ""
      · subst hs
        rfl
      · simp [truthyTitle, hs]
  subst hd
  refine ⟨rfl, rfl, rfl, rfl, rfl, rfl, rfl, rfl, rfl, rfl, rfl, rfl, ?_, ?_⟩
  · exact htitle
  · intro cs hcs
    simp only [t2, setPlotFromData, setPlot]
    exact hcs ▸ rfl

/-- Witness for C9: a tile with a two-column hue list, a filter, reference lines
and a marker round-trips with every stored field intact. -/
theorem tile_round_trip_spec_witness :
    (getPlotData (setPlot (PDf.mk ["x", "y", "g", "h"] []) "x" "y" (Hue.multi ["g", "h"])
        (some "s") false (some "my plot") (some [("g", Val.str "a")]) none (some (0, 5))
        (some [1]) (some [2]) true false (some [{ x := some 1, xerr := some 1 : EMarker }]))
      (some "ds1") = some
      { datasourceId := some "ds1", x := some "x", y := some "y",
        hue := Hue.multi ["g", "h"], semColumn := some "s", semPrecomputed := false,
        filterQuery := some [("g", Val.str "a")], hlines := [1], vlines := [2],
        styleLine := true, styleMarker := false, ylim := some (0, 5),
        title := some "my plot",
        errorMarkers := [{ x := some 1, xerr := some 1 : EMarker }] }) ∧
    (setPlotFromData (PDf.mk ["x", "y", "g", "h"] [])
      { datasourceId := some "ds1", x := some "x", y := some "y",
        hue := Hue.multi ["g", "h"], semColumn := some "s", semPrecomputed := false,
        filterQuery := some [("g", Val.str "a")], hlines := [1], vlines := [2],
        styleLine := true, styleMarker := false, ylim := some (0, 5),
        title := some "my plot",
        errorMarkers := [{ x := some 1, xerr := some 1 : EMarker }] }).hue =
      Hue.multi ["g", "h"] := by
  refine ⟨by with_unfolding_all decide, ?_⟩
  exact (tile_round_trip_spec (PDf.mk ["x", "y", "g", "h"] []) (PDf.mk ["x", "y", "g", "h"] [])
      "x" "y" (Hue.multi ["g", "h"]) (some "s") false (some "my plot")
      (some [("g", Val.str "a")]) none (some (0, 5)) (some [1]) (some [2]) true false
      (some [{ x := some 1, xerr := some 1 : EMarker }]) (some "ds1") _
      (by with_unfolding_all decide)).2.2.2.2.2.2.2.2.2.2.2.2.2
    ["g", "h"] rfl

/-! ## Helper lemmas: inactive SEM column -/

theorem semColActive_of_not_mem {c : String} {cols : List String} (hc : c ∉ cols) :
    semColActive (some c) cols = false := by
  simp [semColActive, hc]

theorem semBandOfSubset_missing {cols : List String} {c : String} (hc : c ∉ cols)
    (subset : List PRow) (x y : String) (hue : Option String) (semPre : Bool) :
    semBandOfSubset cols subset x y (some c) hue semPre =
      semBandOfSubset cols subset x y none hue semPre := by
  unfold semBandOfSubset
  rw [semColActive_of_not_mem hc]
  simp [semColActive]

/-- C10: a non-null SEM column name that is absent from the dataframe's columns
behaves exactly like no SEM column at all: the live series, the export series
and the SEM-aware shared-limits accumulation all take the plain per-x mean
path, no band is drawn, and no warning is logged. -/
theorem missing_sem_column_spec (df : PDf) (rows : List PRow) (x y c : String)
    (semPre : Bool) (label : Option String) (filters : List (List (String × Val)))
    (hue : Option String) (hc : c ∉ df.cols) :
    (plotWithSemLive df.cols rows x y (some c) semPre label =
      plotWithSemLive df.cols rows x y none semPre label) ∧
    ((plotWithSemLive df.cols rows x y (some c) semPre label).1.pts =
      aggMeanByX rows x y) ∧
    ((plotWithSemLive df.cols rows x y (some c) semPre label).1.band = none) ∧
    ((plotWithSemLive df.cols rows x y (some c) semPre label).2 = []) ∧
    (plotWithSemExport df.cols rows x y (some c) semPre label =
      plotWithSemExport df.cols rows x y none semPre label) ∧
    (semLimitsEntries df filters x y (some c) hue semPre =
      semLimitsEntries df filters x y none hue semPre) := by
  have ha := semColActive_of_not_mem hc
  have hlive : plotWithSemLive df.cols rows x y (some c) semPre label =
      plotWithSemLive df.cols rows x y none semPre label := by
    unfold plotWithSemLive
    rw [ha]
    simp [semColActive]
  have hexp : plotWithSemExport df.cols rows x y (some c) semPre label =
      plotWithSemExport df.cols rows x y none semPre label := by
    unfold plotWithSemExport
    rw [ha]
    simp [semColActive]
  have hnone : plotWithSemLive df.cols rows x y none semPre label =
      ({ label := label, pts := aggMeanByX rows x y, band := none }, []) := by
    unfold plotWithSemLive
    simp [semColActive]
  refine ⟨hlive, ?_, ?_, ?_, hexp, ?_⟩
  · rw [hlive, hnone]
  · rw [hlive, hnone]
  · rw [hlive, hnone]
  · unfold semLimitsEntries
    have hfold : ∀ subset : List PRow,
        semBandOfSubset df.cols subset x y (some c) hue semPre =
          semBandOfSubset df.cols subset x y none hue semPre :=
      fun subset => semBandOfSubset_missing hc subset x y hue semPre
    have : (fun (acc : List BandPt) fq =>
        let subset := applyFilter df.rows fq
        if subset = [] then acc
        else acc ++ semBandOfSubset df.cols subset x y (some c) hue semPre) =
        (fun (acc : List BandPt) fq =>
        let subset := applyFilter df.rows fq
        if subset = [] then acc
        else acc ++ semBandOfSubset df.cols subset x y none hue semPre) := by
      funext acc fq
      simp only [hfold]
    rw [this]

/-- Witness for C10: a misspelled SEM column on a two-row frame is silently
ignored. -/
theorem missing_sem_column_spec_witness :
    ("sem" ∉ ["x", "y"]) ∧
    (plotWithSemLive ["x", "y"]
        [[("x", Val.num 1), ("y", Val.num 10)], [("x", Val.num 1), ("y", Val.num 20)]]
        "x" "y" (some "sem") false none).1.band = none := by
  refine ⟨by decide, ?_⟩
  exact (missing_sem_column_spec (PDf.mk ["x", "y"]
      [[("x", Val.num 1), ("y", Val.num 10)], [("x", Val.num 1), ("y", Val.num 20)]])
      [[("x", Val.num 1), ("y", Val.num 10)], [("x", Val.num 1), ("y", Val.num 20)]]
      "x" "y" "sem" false none [] none (by decide)).2.2.1

/-! ## Helper lemmas: folded minima and maxima over subset contributions -/

theorem foldl_min_eq {l : List ℚ} (hne : l ≠ []) (a : ℚ) :
    l.foldl min a = min a (listMin l) := by
  apply le_antisymm
  · apply le_min (foldl_min_le_init l a)
    exact foldl_min_le_of_mem (listMin_mem hne) a
  · rcases foldl_min_mem (l := l) a with h | h
    · rw [h]
      exact min_le_left a (listMin l)
    · exact le_trans (min_le_right a (listMin l)) (listMin_le_of_mem h)

theorem foldl_max_eq {l : List ℚ} (hne : l ≠ []) (a : ℚ) :
    l.foldl max a = max a (listMax l) := by
  apply le_antisymm
  · rcases foldl_max_mem (l := l) a with h | h
    · rw [h]
      exact le_max_left a (listMax l)
    · exact le_trans (le_listMax_of_mem h) (le_max_right a (listMax l))
  · apply max_le (foldl_max_init_le l a)
    exact le_foldl_max_of_mem (listMax_mem hne) a

theorem listMin_cons {v : ℚ} {l : List ℚ} (hne : l ≠ []) :
    listMin (v :: l) = min v (listMin l) := by
  rw [listMin]
  exact foldl_min_eq hne v

theorem listMax_cons {v : ℚ} {l : List ℚ} (hne : l ≠ []) :
    listMax (v :: l) = max v (listMax l) := by
  rw [listMax]
  exact foldl_max_eq hne v

theorem listMin_append {a b : List ℚ} (ha : a ≠ []) (hb : b ≠ []) :
    listMin (a ++ b) = min (listMin a) (listMin b) := by
  have hab : a ++ b ≠ [] := by
    intro hc
    exact ha (List.append_eq_nil.mp hc).1
  apply le_antisymm
  · apply le_min
    · exact listMin_le_of_mem (List.mem_append_left b (listMin_mem ha))
    · exact listMin_le_of_mem (List.mem_append_right a (listMin_mem hb))
  · rcases List.mem_append.mp (listMin_mem hab) with h | h
    · exact le_trans (min_le_left _ _) (listMin_le_of_mem h)
    · exact le_trans (min_le_right _ _) (listMin_le_of_mem h)

theorem listMax_append {a b : List ℚ} (ha : a ≠ []) (hb : b ≠ []) :
    listMax (a ++ b) = max (listMax a) (listMax b) := by
  have hab : a ++ b ≠ [] := by
    intro hc
    exact ha (List.append_eq_nil.mp hc).1
  apply le_antisymm
  · rcases List.mem_append.mp (listMax_mem hab) with h | h
    · exact le_trans (le_listMax_of_mem h) (le_max_left _ _)
    · exact le_trans (le_listMax_of_mem h) (le_max_right _ _)
  · apply max_le
    · exact le_listMax_of_mem (List.mem_append_left b (listMax_mem ha))
    · exact le_listMax_of_mem (List.mem_append_right a (listMax_mem hb))

theorem minMaxEntries_nil_iff (subsets : List (List PRow)) (c : String) :
    minMaxEntries subsets c = [] ↔ subsets.flatMap (fun s => colNums s c) = [] := by
  induction subsets with
  | nil => simp [minMaxEntries]
  | cons s rest ih =>
    simp only [minMaxEntries, List.filterMap_cons, List.flatMap_cons] at *
    by_cases hs : s = []
    · subst hs
      simpa [colNums] using ih
    · rw [if_neg hs]
      by_cases hn : colNums s c = []
      · rw [if_pos hn, hn]
        simpa using ih
      · rw [if_neg hn]
        simp only [List.cons_ne_nil, false_iff, List.append_eq_nil, not_and]
        intro hc
        exact absurd hc hn

theorem minMaxEntries_min_max (subsets : List (List PRow)) (c : String)
    (h : subsets.flatMap (fun s => colNums s c) ≠ []) :
    listMin ((minMaxEntries subsets c).map Prod.fst) =
      listMin (subsets.flatMap (fun s => colNums s c)) ∧
    listMax ((minMaxEntries subsets c).map Prod.snd) =
      listMax (subsets.flatMap (fun s => colNums s c)) := by
  induction subsets with
  | nil => exact absurd rfl h
  | cons s rest ih =>
    simp only [minMaxEntries, List.filterMap_cons, List.flatMap_cons] at *
    by_cases hs : s = []
    · subst hs
      have hcn : colNums ([] : List PRow) c = [] := rfl
      rw [hcn] at h ⊢
      simpa [colNums] using ih (by simpa using h)
    · rw [if_neg hs]
      by_cases hn : colNums s c = []
      · rw [if_pos hn]
        rw [hn, List.nil_append] at h ⊢
        exact ih h
      · rw [if_neg hn]
        by_cases hr : rest.flatMap (fun s2 => colNums s2 c) = []
        · have hment : minMaxEntries rest c = [] := (minMaxEntries_nil_iff rest c).mpr hr
          unfold minMaxEntries at hment
          rw [hment, hr, List.append_nil]
          constructor
          · simp [listMin]
          · simp [listMax]
        · have hrec := ih hr
          have hment : minMaxEntries rest c ≠ [] := by
            intro hc
            exact hr ((minMaxEntries_nil_iff rest c).mp hc)
          have hmap1 : (minMaxEntries rest c).map Prod.fst ≠ [] := by
            intro hc
            exact hment (List.map_eq_nil_iff.mp hc)
          have hmap2 : (minMaxEntries rest c).map Prod.snd ≠ [] := by
            intro hc
            exact hment (List.map_eq_nil_iff.mp hc)
          unfold minMaxEntries at hmap1 hmap2
          constructor
          · rw [List.map_cons, listMin_cons hmap1, listMin_append hn hr, hrec.1]
          · rw [List.map_cons, listMax_cons hmap2, listMax_append hn hr, hrec.2]

theorem sharedLimits_eq_minmax (subsets : List (List PRow)) (x y : String)
    (hx : subsets.flatMap (fun s => colNums s x) ≠ [])
    (hy : subsets.flatMap (fun s => colNums s y) ≠ []) :
    sharedLimits subsets x y =
      ((listMin (subsets.flatMap (fun s => colNums s x)),
        listMax (subsets.flatMap (fun s => colNums s x))),
       (listMin (subsets.flatMap (fun s => colNums s y)),
        listMax (subsets.flatMap (fun s => colNums s y)))) := by
  have hex : minMaxEntries subsets x ≠ [] := by
    intro hc
    exact hx ((minMaxEntries_nil_iff subsets x).mp hc)
  have hey : minMaxEntries subsets y ≠ [] := by
    intro hc
    exact hy ((minMaxEntries_nil_iff subsets y).mp hc)
  have hmx := minMaxEntries_min_max subsets x hx
  have hmy := minMaxEntries_min_max subsets y hy
  unfold sharedLimits
  rw [if_neg (by
    rintro (hc | hc)
    · exact hex hc
    · exact hey hc)]
  rw [hmx.1, hmx.2, hmy.1, hmy.2]

/-- C6 counterexample: one subset whose x column holds the numbers 1 and 2 but
whose y column is entirely non-numeric.  The x axis has valid numeric values
(its per-subset contribution is the pair (1, 2)), yet `shared_limits` discards
them and returns the default unit range for both axes, contradicting the
claimed per-axis independence. -/
theorem shared_limits_claim_counterexample :
    minMaxEntries [[[("x", Val.num 1), ("y", Val.str "a")],
        [("x", Val.num 2), ("y", Val.str "b")]]] "x" = [(1, 2)] ∧
    sharedLimits [[[("x", Val.num 1), ("y", Val.str "a")],
        [("x", Val.num 2), ("y", Val.str "b")]]] "x" "y" = ((0, 1), (0, 1)) ∧
    (sharedLimits [[[("x", Val.num 1), ("y", Val.str "a")],
        [("x", Val.num 2), ("y", Val.str "b")]]] "x" "y").1 ≠ (1, 2) := by
  refine ⟨?_, ?_, ?_⟩ <;> with_unfolding_all decide

/-- C6 (amended): `shared_limits` coerces both columns to numeric and excludes
unparseable values; empty subsets and subsets with no numeric-parseable value
in a column contribute nothing to that axis.  When both axes receive at least
one valid value the result is, for each axis, the minimum and maximum over all
valid values of all subsets; but when either axis receives none, the default
unit range (0.0, 1.0) is returned for both axes — even if the other axis had
valid values. -/
theorem shared_limits_spec (subsets : List (List PRow)) (x y : String) :
    ((subsets.flatMap (fun s => colNums s x) ≠ [] ∧
      subsets.flatMap (fun s => colNums s y) ≠ []) →
      sharedLimits subsets x y =
        ((listMin (subsets.flatMap (fun s => colNums s x)),
          listMax (subsets.flatMap (fun s => colNums s x))),
         (listMin (subsets.flatMap (fun s => colNums s y)),
          listMax (subsets.flatMap (fun s => colNums s y))))) ∧
    ((subsets.flatMap (fun s => colNums s x) = [] ∨
      subsets.flatMap (fun s => colNums s y) = []) →
      sharedLimits subsets x y = ((0, 1), (0, 1))) := by
  constructor
  · rintro ⟨hx, hy⟩
    exact sharedLimits_eq_minmax subsets x y hx hy
  · intro hor
    unfold sharedLimits
    rw [if_pos]
    rcases hor with hc | hc
    · exact Or.inl ((minMaxEntries_nil_iff subsets x).mpr hc)
    · exact Or.inr ((minMaxEntries_nil_iff subsets y).mpr hc)

/-- Witness for C6 (amended) at the specification's own example:
subsets x:[0,1,2]/y:[10,20,30] and x:[2,3,4]/y:[5,15,25] share the ranges
x:(0,4) and y:(5,30). -/
theorem shared_limits_spec_witness :
    (([[[("x", Val.num 0), ("y", Val.num 10)], [("x", Val.num 1), ("y", Val.num 20)],
        [("x", Val.num 2), ("y", Val.num 30)]],
       [[("x", Val.num 2), ("y", Val.num 5)], [("x", Val.num 3), ("y", Val.num 15)],
        [("x", Val.num 4), ("y", Val.num 25)]]] : List (List PRow)).flatMap
        (fun s => colNums s "x") ≠ [] ∧
     ([[[("x", Val.num 0), ("y", Val.num 10)], [("x", Val.num 1), ("y", Val.num 20)],
        [("x", Val.num 2), ("y", Val.num 30)]],
       [[("x", Val.num 2), ("y", Val.num 5)], [("x", Val.num 3), ("y", Val.num 15)],
        [("x", Val.num 4), ("y", Val.num 25)]]] : List (List PRow)).flatMap
        (fun s => colNums s "y") ≠ []) ∧
    sharedLimits [[[("x", Val.num 0), ("y", Val.num 10)], [("x", Val.num 1), ("y", Val.num 20)],
        [("x", Val.num 2), ("y", Val.num 30)]],
       [[("x", Val.num 2), ("y", Val.num 5)], [("x", Val.num 3), ("y", Val.num 15)],
        [("x", Val.num 4), ("y", Val.num 25)]]] "x" "y" = ((0, 4), (5, 30)) := by
  have h : ([[[("x", Val.num 0), ("y", Val.num 10)], [("x", Val.num 1), ("y", Val.num 20)],
        [("x", Val.num 2), ("y", Val.num 30)]],
       [[("x", Val.num 2), ("y", Val.num 5)], [("x", Val.num 3), ("y", Val.num 15)],
        [("x", Val.num 4), ("y", Val.num 25)]]] : List (List PRow)).flatMap
        (fun s => colNums s "x") ≠ [] ∧
      ([[[("x", Val.num 0), ("y", Val.num 10)], [("x", Val.num 1), ("y", Val.num 20)],
        [("x", Val.num 2), ("y", Val.num 30)]],
       [[("x", Val.num 2), ("y", Val.num 5)], [("x", Val.num 3), ("y", Val.num 15)],
        [("x", Val.num 4), ("y", Val.num 25)]]] : List (List PRow)).flatMap
        (fun s => colNums s "y") ≠ [] := by
    constructor <;> with_unfolding_all decide
  refine ⟨h, ?_⟩
  have h2 := (shared_limits_spec [[[("x", Val.num 0), ("y", Val.num 10)],
        [("x", Val.num 1), ("y", Val.num 20)], [("x", Val.num 2), ("y", Val.num 30)]],
       [[("x", Val.num 2), ("y", Val.num 5)], [("x", Val.num 3), ("y", Val.num 15)],
        [("x", Val.num 4), ("y", Val.num 25)]]] "x" "y").1 h
  rw [h2]
  with_unfolding_all decide

/-! ## Helper lemmas: the two-level computed-SEM grouping -/

theorem groupSlice_comm (rows : List PRow) (a b : String) (va vb : Val) :
    groupSlice (groupSlice rows a va) b vb = groupSlice (groupSlice rows b vb) a va := by
  unfold groupSlice
  rw [List.filter_filter, List.filter_filter]
  congr 1
  funext r
  rw [Bool.and_comm]

theorem filter_eq_singleton_of_nodup {l : List Val} (hn : l.Nodup) (xv : Val) :
    l.filter (fun v => decide (v = xv)) = if xv ∈ l then [xv] else [] := by
  induction l with
  | nil => simp
  | cons a as ih =>
    rcases List.nodup_cons.mp hn with ⟨hna, hnas⟩
    rw [List.filter_cons, ih hnas]
    by_cases hax : a = xv
    · subst hax
      simp [hna]
    · by_cases hmem : xv ∈ as
      · simp [hax, hmem, Ne.symm hax]
      · simp [hax, hmem, Ne.symm hax]

theorem flatMap_pairs_filter (subs : List Val) (keysOf : Val → List Val)
    (f : Val → Val → ℚ) (xv : Val) (hnodup : ∀ s, (keysOf s).Nodup) :
    ((subs.flatMap (fun s => (keysOf s).map (fun xv2 => ((s, xv2), f s xv2)))).filter
        (fun e => decide (e.1.2 = xv))).map (fun e => e.2) =
      (subs.filter (fun s => decide (xv ∈ keysOf s))).map (fun s => f s xv) := by
  induction subs with
  | nil => rfl
  | cons s rest ih =>
    rw [List.flatMap_cons, List.filter_append, List.map_append, ih, List.filter_cons]
    have hinner : ((((keysOf s).map (fun xv2 => ((s, xv2), f s xv2))).filter
        (fun e => decide (e.1.2 = xv))).map (fun e => e.2)) =
        if xv ∈ keysOf s then [f s xv] else [] := by
      rw [List.filter_map]
      have hcong : (keysOf s).filter
          ((fun e : (Val × Val) × ℚ => decide (e.1.2 = xv)) ∘ (fun xv2 => ((s, xv2), f s xv2))) =
          (keysOf s).filter (fun v => decide (v = xv)) := by
        apply List.filter_congr
        intro v _
        rfl
      rw [hcong, filter_eq_singleton_of_nodup (hnodup s) xv]
      by_cases hmem : xv ∈ keysOf s
      · rw [if_pos hmem, if_pos hmem]
        rfl
      · rw [if_neg hmem, if_neg hmem]
        rfl
    rw [hinner]
    by_cases hmem : xv ∈ keysOf s
    · rw [if_pos hmem, if_pos (by simpa using hmem)]
      rfl
    · rw [if_neg hmem, if_neg (by simpa using hmem)]
      rfl

theorem groupKeys_nodup (rows : List PRow) (c : String) : (groupKeys rows c).Nodup :=
  sortedDistinct_nodup _

theorem groupKeys_sorted (rows : List PRow) (c : String) :
    (groupKeys rows c).Sorted (· ≤ ·) :=
  sortedDistinct_sorted _

theorem mem_groupKeys_slice {rows : List PRow} {a b : String} {va vb : Val} :
    vb ∈ groupKeys (groupSlice rows a va) b ↔
      ∃ r ∈ rows, cellV r a = some va ∧ cellV r b = some vb := by
  rw [mem_groupKeys]
  constructor
  · rintro ⟨r, hr, hcell⟩
    rcases mem_groupSlice.mp hr with ⟨hr2, hc2⟩
    exact ⟨r, hr2, hc2, hcell⟩
  · rintro ⟨r, hr, hc1, hc2⟩
    exact ⟨r, mem_groupSlice.mpr ⟨hr, hc1⟩, hc2⟩

theorem subjects_with_x_eq (rows : List PRow) (semc x : String) (xv : Val) :
    (groupKeys rows semc).filter
        (fun s => decide (xv ∈ groupKeys (groupSlice rows semc s) x)) =
      groupKeys (groupSlice rows x xv) semc := by
  apply List.eq_of_perm_of_sorted (r := (· ≤ ·))
  · rw [List.perm_ext_iff_of_nodup ((groupKeys_nodup rows semc).filter _)
      (groupKeys_nodup _ semc)]
    intro s
    rw [List.mem_filter]
    simp only [decide_eq_true_eq]
    constructor
    · rintro ⟨_, hmem⟩
      rcases mem_groupKeys_slice.mp hmem with ⟨r, hr, hc1, hc2⟩
      exact mem_groupKeys_slice.mpr ⟨r, hr, hc2, hc1⟩
    · intro hmem
      rcases mem_groupKeys_slice.mp hmem with ⟨r, hr, hc1, hc2⟩
      refine ⟨mem_groupKeys.mpr ⟨r, hr, hc2⟩, ?_⟩
      exact mem_groupKeys_slice.mpr ⟨r, hr, hc2, hc1⟩
  · exact (groupKeys_sorted rows semc).filter _
  · exact groupKeys_sorted _ semc

theorem semStage2_vals (rows : List PRow) (semc x y : String) (xv : Val) :
    ((semStage1 rows semc x y).filter (fun e => decide (e.1.2 = xv))).map
        (fun e => e.2) = specReps rows semc x y xv := by
  have h1 : semStage1 rows semc x y =
      (groupKeys rows semc).flatMap
        (fun s => (groupKeys (groupSlice rows semc s) x).map
          (fun xv2 => ((s, xv2),
            mean (colNums (groupSlice (groupSlice rows semc s) x xv2) y)))) := by
    simp only [semStage1]
  rw [h1, flatMap_pairs_filter (groupKeys rows semc)
      (fun s => groupKeys (groupSlice rows semc s) x)
      (fun s xv2 => mean (colNums (groupSlice (groupSlice rows semc s) x xv2) y)) xv
      (fun s => groupKeys_nodup _ x),
    subjects_with_x_eq rows semc x xv]
  unfold specReps
  apply List.map_congr_left
  intro s _
  rw [groupSlice_comm]

theorem mem_semStage1_xpart {rows : List PRow} {semc x y : String} {xv : Val} :
    xv ∈ (semStage1 rows semc x y).map (fun e => e.1.2) ↔
      ∃ r ∈ rows, (cellV r semc).isSome ∧ cellV r x = some xv := by
  simp only [semStage1, List.mem_map, List.mem_flatMap]
  constructor
  · rintro ⟨e, ⟨s, hs, he⟩, hxe⟩
    rcases he with ⟨xv2, hxv2, he2⟩
    subst he2
    simp only [] at hxe
    subst hxe
    rcases mem_groupKeys_slice.mp hxv2 with ⟨r, hr, hc1, hc2⟩
    exact ⟨r, hr, by rw [hc1]; rfl, hc2⟩
  · rintro ⟨r, hr, hsome, hx⟩
    rcases Option.isSome_iff_exists.mp hsome with ⟨s, hs⟩
    refine ⟨((s, xv), mean (colNums (groupSlice (groupSlice rows semc s) x xv) y)),
      ⟨s, mem_groupKeys.mpr ⟨r, hr, hs⟩,
        ⟨xv, mem_groupKeys_slice.mpr ⟨r, hr, hs, hx⟩, rfl⟩⟩, rfl⟩

theorem semStage2_keys (rows : List PRow) (semc x y : String)
    (hsem : ∀ r ∈ rows, (cellV r semc).isSome) :
    (semStage2 rows semc x y).map (fun e => e.1) = groupKeys rows x := by
  unfold semStage2
  rw [List.map_map]
  have h1 : (fun (e : Val × ℚ × Option ℚ) => e.1) ∘ (fun xv =>
      ((xv : Val),
        mean (((semStage1 rows semc x y).filter (fun e => decide (e.1.2 = xv))).map (fun e => e.2)),
        semSq (((semStage1 rows semc x y).filter (fun e => decide (e.1.2 = xv))).map (fun e => e.2)))) =
      fun xv => xv := rfl
  rw [h1, List.map_id']
  unfold groupKeys
  apply sortedDistinct_congr
  intro xv
  rw [mem_semStage1_xpart, List.mem_filterMap]
  constructor
  · rintro ⟨r, hr, _, hx⟩
    exact ⟨r, hr, hx⟩
  · rintro ⟨r, hr, hx⟩
    exact ⟨r, hr, hsem r hr, hx⟩

theorem semSq_none_iff (l : List ℚ) : semSq l = none ↔ l.length < 2 := by
  unfold semSq
  by_cases h : 2 ≤ l.length
  · rw [if_pos h]
    simp [Nat.lt_iff_add_one_le]
    omega
  · rw [if_neg h]
    simp
    omega

theorem semSq_char {l : List ℚ} {s : ℚ} (h : semSq l = some s) :
    s * (((l.length : ℚ) - 1) * (l.length : ℚ)) =
      (l.map (fun v => (v - mean l) ^ 2)).sum := by
  unfold semSq at h
  by_cases hlen : 2 ≤ l.length
  · rw [if_pos hlen] at h
    have hs := (Option.some.inj h).symm
    have hn : (2 : ℚ) ≤ (l.length : ℚ) := by exact_mod_cast hlen
    have h1 : ((l.length : ℚ) - 1) ≠ 0 := by nlinarith
    have h2 : (l.length : ℚ) ≠ 0 := by nlinarith
    rw [hs]
    field_simp
  · rw [if_neg hlen] at h
    cases h

/-- C2: the computed-SEM engine first groups by (SEM value, x value) and takes
the mean of y within each pair, then per x computes the mean and the SEM over
the per-subject representatives.  Formally: every row of the second-level
statistics table carries the mean and (squared) SEM of exactly the
representative list `specReps` described by the specification, with the SEM
square satisfying `sem^2 * (n-1) * n = sum of squared deviations` — i.e.
`sem = sample std (ddof=1) / sqrt n` — and `NaN` exactly below two
representatives. -/
theorem computed_sem_engine_spec (rows : List PRow) (semc x y : String)
    (hsem : ∀ r ∈ rows, (cellV r semc).isSome) :
    ((semStage2 rows semc x y).map (fun e => e.1) = groupKeys rows x) ∧
    (∀ e ∈ semStage2 rows semc x y,
      e.2.1 = mean (specReps rows semc x y e.1) ∧
      e.2.2 = semSq (specReps rows semc x y e.1) ∧
      (e.2.2 = none ↔ (specReps rows semc x y e.1).length < 2) ∧
      (∀ s, e.2.2 = some s →
        s * ((((specReps rows semc x y e.1).length : ℚ) - 1) *
            ((specReps rows semc x y e.1).length : ℚ)) =
          ((specReps rows semc x y e.1).map
            (fun v => (v - mean (specReps rows semc x y e.1)) ^ 2)).sum)) := by
  refine ⟨semStage2_keys rows semc x y hsem, ?_⟩
  intro e he
  unfold semStage2 at he
  rcases List.mem_map.mp he with ⟨xv, hxv, rfl⟩
  simp only []
  rw [semStage2_vals rows semc x y xv]
  refine ⟨rfl, rfl, semSq_none_iff _, ?_⟩
  intro s hs
  exact semSq_char hs

/-- Witness for C2 at the specification's example: x constant 1,
y = [10, 12, 14, 16], one row per subject; the engine reports mean 13 and
squared SEM 5/3 (sem = sqrt(20/3)/2). -/
theorem computed_sem_engine_spec_witness :
    (∀ r ∈ ([[("x", Val.num 1), ("y", Val.num 10), ("s", Val.str "s1")],
        [("x", Val.num 1), ("y", Val.num 12), ("s", Val.str "s2")],
        [("x", Val.num 1), ("y", Val.num 14), ("s", Val.str "s3")],
        [("x", Val.num 1), ("y", Val.num 16), ("s", Val.str "s4")]] : List PRow),
      (cellV r "s").isSome) ∧
    semStage2 [[("x", Val.num 1), ("y", Val.num 10), ("s", Val.str "s1")],
        [("x", Val.num 1), ("y", Val.num 12), ("s", Val.str "s2")],
        [("x", Val.num 1), ("y", Val.num 14), ("s", Val.str "s3")],
        [("x", Val.num 1), ("y", Val.num 16), ("s", Val.str "s4")]] "s" "x" "y" =
      [(Val.num 1, 13, some (5/3))] ∧
    (Val.num 1, (13 : ℚ), some ((5 : ℚ)/3)).2.1 =
      mean (specReps [[("x", Val.num 1), ("y", Val.num 10), ("s", Val.str "s1")],
        [("x", Val.num 1), ("y", Val.num 12), ("s", Val.str "s2")],
        [("x", Val.num 1), ("y", Val.num 14), ("s", Val.str "s3")],
        [("x", Val.num 1), ("y", Val.num 16), ("s", Val.str "s4")]] "s" "x" "y"
        (Val.num 1, (13 : ℚ), some ((5 : ℚ)/3)).1) := by
  refine ⟨by decide, by with_unfolding_all decide, ?_⟩
  exact ((computed_sem_engine_spec [[("x", Val.num 1), ("y", Val.num 10), ("s", Val.str "s1")],
        [("x", Val.num 1), ("y", Val.num 12), ("s", Val.str "s2")],
        [("x", Val.num 1), ("y", Val.num 14), ("s", Val.str "s3")],
        [("x", Val.num 1), ("y", Val.num 16), ("s", Val.str "s4")]] "s" "x" "y"
      (by decide)).2 (Val.num 1, 13, some (5/3))
      (by with_unfolding_all decide)).1

/-- C4 counterexample: x = 1 has a single representative (SEM is NaN), x = 2
has two.  The band is drawn (some SEM is finite), but at x = 1 the drawn band
half-width is `none` — `fill_between` receives NaN and leaves a gap — not the
zero width (band edges equal to the mean) that the claim asserts.  The mean
line still has a point at x = 1. -/
theorem nan_sem_band_claim_counterexample :
    (plotWithSemLive ["x", "y", "s"]
        [[("x", Val.num 1), ("y", Val.num 10), ("s", Val.str "a")],
         [("x", Val.num 2), ("y", Val.num 10), ("s", Val.str "a")],
         [("x", Val.num 2), ("y", Val.num 20), ("s", Val.str "b")]]
        "x" "y" (some "s") false none).1.band =
      some [(Val.num 1, 10, none), (Val.num 2, 15, some (HalfWidth.sqrtSq 25))] ∧
    ((plotWithSemLive ["x", "y", "s"]
        [[("x", Val.num 1), ("y", Val.num 10), ("s", Val.str "a")],
         [("x", Val.num 2), ("y", Val.num 10), ("s", Val.str "a")],
         [("x", Val.num 2), ("y", Val.num 20), ("s", Val.str "b")]]
        "x" "y" (some "s") false none).1.band ≠
      some [(Val.num 1, 10, some (HalfWidth.sqrtSq 0)), (Val.num 2, 15, some (HalfWidth.sqrtSq 25))]) ∧
    (plotWithSemLive ["x", "y", "s"]
        [[("x", Val.num 1), ("y", Val.num 10), ("s", Val.str "a")],
         [("x", Val.num 2), ("y", Val.num 10), ("s", Val.str "a")],
         [("x", Val.num 2), ("y", Val.num 20), ("s", Val.str "b")]]
        "x" "y" (some "s") false none).1.pts = [(Val.num 1, 10), (Val.num 2, 15)] := by
  refine ⟨?_, ?_, ?_⟩ <;> with_unfolding_all decide

/-- C4 (amended): in the computed-SEM drawing path the mean line has a point at
every distinct x (an undefined SEM never suppresses it), and the drawn band —
when drawn at all — carries at each x exactly the SEM of the per-subject
representatives, which is missing (`none`, a NaN gap in the band, not a
zero-width band) precisely when there are fewer than two representatives.  In
the shared-limits helper `_compute_sem_stats`, by contrast, the NaN SEM is
coerced to zero: the accumulated band point there is `sq mean 0`, whose edges
equal the mean. -/
theorem nan_sem_band_spec (rows : List PRow) (x y semc : String) (cols : List String)
    (hsem : ∀ r ∈ rows, (cellV r semc).isSome)
    (hactive : semColActive (some semc) cols = true) :
    ((plotWithSemLive cols rows x y (some semc) false none).1.pts.map Prod.fst =
      groupKeys rows x) ∧
    (∀ b, (plotWithSemLive cols rows x y (some semc) false none).1.band = some b →
      b.map (fun e => e.1) = groupKeys rows x ∧
      ∀ e ∈ b, e.2.2 = (semSq (specReps rows semc x y e.1)).map HalfWidth.sqrtSq ∧
        (e.2.2 = none ↔ (specReps rows semc x y e.1).length < 2)) ∧
    (∀ pts, computeSemStats rows x y semc = some pts →
      ∀ (i : ℕ) (e : Val × ℚ × Option ℚ), (semStage2 rows semc x y)[i]? = some e →
        e.2.2 = none → pts[i]? = some (BandPt.sq e.2.1 0)) := by
  have hout : plotWithSemLive cols rows x y (some semc) false none =
      ({ label := none
         pts := (semStage2 rows ((some semc : Option String).getD "") x y).map
           (fun e => (e.1, e.2.1))
         band :=
           if (semStage2 rows ((some semc : Option String).getD "") x y).any
               (fun e => e.2.2.isSome) then
             some ((semStage2 rows ((some semc : Option String).getD "") x y).map
               (fun e => (e.1, e.2.1, e.2.2.map HalfWidth.sqrtSq)))
           else none }, []) := by
    unfold plotWithSemLive
    rw [hactive]
    simp
  simp only [Option.getD_some] at hout
  have hvals : ∀ e ∈ semStage2 rows semc x y,
      e.2.2 = semSq (specReps rows semc x y e.1) := by
    intro e he
    unfold semStage2 at he
    rcases List.mem_map.mp he with ⟨xv, _, rfl⟩
    simp only []
    rw [semStage2_vals rows semc x y xv]
  refine ⟨?_, ?_, ?_⟩
  · rw [hout]
    simp only [List.map_map]
    exact semStage2_keys rows semc x y hsem
  · intro b hb
    rw [hout] at hb
    simp only [] at hb
    by_cases hany : (semStage2 rows semc x y).any (fun e => e.2.2.isSome)
    · rw [if_pos hany] at hb
      have hbe : b = (semStage2 rows semc x y).map
          (fun e => (e.1, e.2.1, e.2.2.map HalfWidth.sqrtSq)) := (Option.some.inj hb).symm
      subst hbe
      constructor
      · rw [List.map_map]
        exact semStage2_keys rows semc x y hsem
      · intro e he
        rcases List.mem_map.mp he with ⟨e0, he0, rfl⟩
        simp only []
        have h1 := hvals e0 he0
        constructor
        · rw [h1]
        · rw [h1]
          rcases Option.eq_none_or_eq_some (semSq (specReps rows semc x y e0.1)) with h2 | h2
          · rw [h2]
            exact iff_of_true rfl ((semSq_none_iff _).mp h2)
          · rcases h2 with ⟨s, h2⟩
            rw [h2]
            constructor
            · intro hc
              cases hc
            · intro hlt
              rw [(semSq_none_iff _).mpr hlt] at h2
              cases h2
    · rw [if_neg hany] at hb
      cases hb
  · intro pts hpts i e hie hnone
    unfold computeSemStats at hpts
    by_cases hst : semStage2 rows semc x y = []
    · rw [if_pos hst] at hpts
      cases hpts
    · rw [if_neg hst] at hpts
      have hpe : pts = (semStage2 rows semc x y).map
          (fun e => BandPt.sq e.2.1 (e.2.2.getD 0)) := (Option.some.inj hpts).symm
      subst hpe
      rw [List.getElem?_map, hie]
      simp [hnone]

/-- Witness for C4 (amended) at the counterexample data: the mean line covers
both x = 1 and x = 2. -/
theorem nan_sem_band_spec_witness :
    (∀ r ∈ ([[("x", Val.num 1), ("y", Val.num 10), ("s", Val.str "a")],
         [("x", Val.num 2), ("y", Val.num 10), ("s", Val.str "a")],
         [("x", Val.num 2), ("y", Val.num 20), ("s", Val.str "b")]] : List PRow),
      (cellV r "s").isSome) ∧
    semColActive (some "s") ["x", "y", "s"] = true ∧
    (plotWithSemLive ["x", "y", "s"]
        [[("x", Val.num 1), ("y", Val.num 10), ("s", Val.str "a")],
         [("x", Val.num 2), ("y", Val.num 10), ("s", Val.str "a")],
         [("x", Val.num 2), ("y", Val.num 20), ("s", Val.str "b")]]
        "x" "y" (some "s") false none).1.pts.map Prod.fst =
      groupKeys [[("x", Val.num 1), ("y", Val.num 10), ("s", Val.str "a")],
         [("x", Val.num 2), ("y", Val.num 10), ("s", Val.str "a")],
         [("x", Val.num 2), ("y", Val.num 20), ("s", Val.str "b")]] "x" := by
  refine ⟨by decide, by decide, ?_⟩
  exact (nan_sem_band_spec [[("x", Val.num 1), ("y", Val.num 10), ("s", Val.str "a")],
         [("x", Val.num 2), ("y", Val.num 10), ("s", Val.str "a")],
         [("x", Val.num 2), ("y", Val.num 20), ("s", Val.str "b")]]
      "x" "y" "s" ["x", "y", "s"] (by decide) (by decide)).1

/-- C1: the live render (`PlotTile.set_plot`) and the export re-render
(`_render_plot_to_ax`) are not semantically identical, although the export
helpers document themselves as mirroring the live path.  At the concrete tiles
below: (1) on an empty filtered set the live path draws the "No data"
placeholder and no series while the export path draws neither placeholder nor
data; (2) the live marker renderer always draws the default down-triangle
`"v"` while the export honors the stored `"o"` shape; (3) for a two-column hue
list the live path synthesizes `"col=val, col=val"` labels while the export
groups by the raw column list and labels with the str() of the key tuple. -/
theorem render_parity_code_bug :
    (renderLive (PDf.mk ["x", "y"] [[("x", Val.num 1), ("y", Val.num 2)]]) "x" "y"
        Hue.noHue none false none (some [("x", Val.num 99)]) none none [] []
        [{ x := some 1, y := some 1, xerr := some 1, marker := some "o" : EMarker }]
        (0, 10) (0, 10)).noData = true ∧
    (renderExport (PDf.mk ["x", "y"] [[("x", Val.num 1), ("y", Val.num 2)]]) "x" "y"
        Hue.noHue none false none (some [("x", Val.num 99)]) none [] []
        [{ x := some 1, y := some 1, xerr := some 1, marker := some "o" : EMarker }]
        (0, 10) (0, 10)).noData = false ∧
    (renderLive (PDf.mk ["x", "y"] [[("x", Val.num 1), ("y", Val.num 2)]]) "x" "y"
        Hue.noHue none false none (some [("x", Val.num 99)]) none none [] []
        [{ x := some 1, y := some 1, xerr := some 1, marker := some "o" : EMarker }]
        (0, 10) (0, 10)).markers.map DrawnMarker.fmt = ["v"] ∧
    (renderExport (PDf.mk ["x", "y"] [[("x", Val.num 1), ("y", Val.num 2)]]) "x" "y"
        Hue.noHue none false none (some [("x", Val.num 99)]) none [] []
        [{ x := some 1, y := some 1, xerr := some 1, marker := some "o" : EMarker }]
        (0, 10) (0, 10)).markers.map DrawnMarker.fmt = ["o"] ∧
    (renderLive (PDf.mk ["x", "y", "g", "h"]
        [[("x", Val.num 1), ("y", Val.num 2), ("g", Val.str "a"), ("h", Val.str "b")]])
        "x" "y" (Hue.multi ["g", "h"]) none false none none none none [] [] []
        (0, 10) (0, 10)).series.map SeriesOut.label = [some "g=a, h=b"] ∧
    (renderExport (PDf.mk ["x", "y", "g", "h"]
        [[("x", Val.num 1), ("y", Val.num 2), ("g", Val.str "a"), ("h", Val.str "b")]])
        "x" "y" (Hue.multi ["g", "h"]) none false none none none [] [] []
        (0, 10) (0, 10)).series.map SeriesOut.label = [some "('a', 'b')"] := by
  refine ⟨?_, ?_, ?_, ?_, ?_, ?_⟩ <;> with_unfolding_all decide

/-! ## Helper lemmas: band containment for SEM-aware shared limits -/

theorem applyFilter_sublist (rows : List PRow) (fq : List (String × Val)) :
    (applyFilter rows fq).Sublist rows := by
  induction fq generalizing rows with
  | nil => exact List.Sublist.refl rows
  | cons e rest ih =>
    exact List.Sublist.trans (ih _) (List.filter_sublist rows)

theorem BandPt.inside_mono {pt : BandPt} {lo hi lo2 hi2 : ℚ}
    (h : pt.inside lo hi) (hlo : lo2 ≤ lo) (hhi : hi ≤ hi2) : pt.inside lo2 hi2 := by
  cases pt with
  | sq m s =>
    rcases h with ⟨h1, h2, h3, h4⟩
    refine ⟨le_trans hlo h1, le_trans h2 hhi, ?_, ?_⟩
    · calc s ≤ (m - lo) ^ 2 := h3
        _ ≤ (m - lo2) ^ 2 := by nlinarith
    · calc s ≤ (hi - m) ^ 2 := h4
        _ ≤ (hi2 - m) ^ 2 := by nlinarith
  | iv a b =>
    exact ⟨le_trans hlo h.1, le_trans h.2 hhi⟩

theorem specReps_ne_nil {rs : List PRow} {semc x y : String} {xv : Val}
    (h : xv ∈ (semStage1 rs semc x y).map (fun e => e.1.2)) :
    specReps rs semc x y xv ≠ [] := by
  rcases mem_semStage1_xpart.mp h with ⟨r, hr, hsome, hx⟩
  rcases Option.isSome_iff_exists.mp hsome with ⟨s, hs⟩
  unfold specReps
  intro hc
  rw [List.map_eq_nil_iff] at hc
  have h2 : s ∈ groupKeys (groupSlice rs x xv) semc :=
    mem_groupKeys_slice.mpr ⟨r, hr, hx, hs⟩
  rw [hc] at h2
  cases h2

theorem specReps_val_bounds {rs : List PRow} {semc x y : String} {xv : Val} {lo hi : ℚ}
    (hnum : ∀ r ∈ rs, ∃ q : ℚ, cellV r y = some (Val.num q))
    (hin : ∀ q ∈ colNums rs y, lo ≤ q ∧ q ≤ hi) :
    ∀ v ∈ specReps rs semc x y xv, lo ≤ v ∧ v ≤ hi := by
  intro v hv
  unfold specReps at hv
  rcases List.mem_map.mp hv with ⟨s, hs, rfl⟩
  have hsub : (groupSlice (groupSlice rs x xv) semc s).Sublist rs :=
    List.Sublist.trans (groupSlice_sublist _ _ _) (groupSlice_sublist _ _ _)
  have hslice_ne : groupSlice (groupSlice rs x xv) semc s ≠ [] :=
    groupSlice_ne_nil hs
  have hnum2 : ∀ r ∈ groupSlice (groupSlice rs x xv) semc s,
      ∃ q : ℚ, cellV r y = some (Val.num q) :=
    fun r hr => hnum r (hsub.mem hr)
  have hcn_ne : colNums (groupSlice (groupSlice rs x xv) semc s) y ≠ [] :=
    colNums_ne_nil hslice_ne hnum2
  have hsubn : ∀ q ∈ colNums (groupSlice (groupSlice rs x xv) semc s) y,
      lo ≤ q ∧ q ≤ hi :=
    fun q hq => hin q ((colNums_sublist_mono hsub).mem hq)
  constructor
  · exact le_mean_of_forall_le hcn_ne (fun q hq => (hsubn q hq).1)
  · exact mean_le_of_forall_le hcn_ne (fun q hq => (hsubn q hq).2)

theorem sq_stats_inside {vals : List ℚ} {lo hi : ℚ} (hne : vals ≠ [])
    (hb : ∀ v ∈ vals, lo ≤ v ∧ v ≤ hi) :
    (BandPt.sq (mean vals) ((semSq vals).getD 0)).inside lo hi := by
  have hm1 : lo ≤ mean vals := le_mean_of_forall_le hne (fun v hv => (hb v hv).1)
  have hm2 : mean vals ≤ hi := mean_le_of_forall_le hne (fun v hv => (hb v hv).2)
  refine ⟨hm1, hm2, ?_, ?_⟩
  · rcases hsq : semSq vals with _ | s
    · simpa using sq_nonneg (mean vals - lo)
    · have h1 := semSq_le_sq_min hsq
      have h2 : listMin vals ≥ lo := (hb _ (listMin_mem hne)).1
      have h3 : listMin vals ≤ mean vals := listMin_le_mean hne
      simp only [Option.getD_some]
      calc s ≤ (mean vals - listMin vals) ^ 2 := h1
        _ ≤ (mean vals - lo) ^ 2 := by nlinarith
  · rcases hsq : semSq vals with _ | s
    · simpa using sq_nonneg (hi - mean vals)
    · have h1 := semSq_le_sq_max hsq
      have h2 : listMax vals ≤ hi := (hb _ (listMax_mem hne)).2
      have h3 : mean vals ≤ listMax vals := mean_le_listMax hne
      simp only [Option.getD_some]
      calc s ≤ (listMax vals - mean vals) ^ 2 := h1
        _ ≤ (hi - mean vals) ^ 2 := by nlinarith

theorem computeSemStats_inside {rs : List PRow} {x y semc : String} {lo hi : ℚ}
    (hnum : ∀ r ∈ rs, ∃ q : ℚ, cellV r y = some (Val.num q))
    (hin : ∀ q ∈ colNums rs y, lo ≤ q ∧ q ≤ hi)
    {pts : List BandPt} (hpts : computeSemStats rs x y semc = some pts) :
    ∀ pt ∈ pts, pt.inside lo hi := by
  intro pt hpt
  unfold computeSemStats at hpts
  by_cases hst : semStage2 rs semc x y = []
  · rw [if_pos hst] at hpts
    cases hpts
  · rw [if_neg hst] at hpts
    have hpe : pts = (semStage2 rs semc x y).map
        (fun e => BandPt.sq e.2.1 (e.2.2.getD 0)) := (Option.some.inj hpts).symm
    subst hpe
    rcases List.mem_map.mp hpt with ⟨e, he, rfl⟩
    unfold semStage2 at he
    rcases List.mem_map.mp he with ⟨xv, hxv, rfl⟩
    simp only []
    rw [semStage2_vals rs semc x y xv]
    have hxv2 : xv ∈ (semStage1 rs semc x y).map (fun e => e.1.2) :=
      mem_sortedDistinct.mp hxv
    exact sq_stats_inside (specReps_ne_nil hxv2) (specReps_val_bounds hnum hin)

theorem aggMeans_in_range {rs : List PRow} {x y : String} {lo hi : ℚ}
    (hnum : ∀ r ∈ rs, ∃ q : ℚ, cellV r y = some (Val.num q))
    (hin : ∀ q ∈ colNums rs y, lo ≤ q ∧ q ≤ hi) :
    ∀ v ∈ (aggMeanByX rs x y).map Prod.snd, lo ≤ v ∧ v ≤ hi := by
  intro v hv
  rcases List.mem_map.mp hv with ⟨p, hp, rfl⟩
  unfold aggMeanByX at hp
  rcases List.mem_map.mp hp with ⟨xv, hxv, rfl⟩
  simp only []
  have hslice_ne : groupSlice rs x xv ≠ [] := groupSlice_ne_nil hxv
  have hnum2 : ∀ r ∈ groupSlice rs x xv, ∃ q : ℚ, cellV r y = some (Val.num q) :=
    fun r hr => hnum r ((groupSlice_sublist rs x xv).mem hr)
  have hcn_ne : colNums (groupSlice rs x xv) y ≠ [] := colNums_ne_nil hslice_ne hnum2
  have hsubn : ∀ q ∈ colNums (groupSlice rs x xv) y, lo ≤ q ∧ q ≤ hi :=
    fun q hq => hin q ((colNums_sublist_mono (groupSlice_sublist rs x xv)).mem hq)
  constructor
  · exact le_mean_of_forall_le hcn_ne (fun q hq => (hsubn q hq).1)
  · exact mean_le_of_forall_le hcn_ne (fun q hq => (hsubn q hq).2)

theorem semBandOfSubset_inside {cols : List String} {subset : List PRow}
    {x y : String} {semCol hue : Option String} {lo hi : ℚ}
    (hnum : ∀ r ∈ subset, ∃ q : ℚ, cellV r y = some (Val.num q))
    (hin : ∀ q ∈ colNums subset y, lo ≤ q ∧ q ≤ hi) :
    ∀ pt ∈ semBandOfSubset cols subset x y semCol hue false, pt.inside lo hi := by
  intro pt hpt
  unfold semBandOfSubset at hpt
  by_cases hsa : semColActive semCol cols
  · rw [if_pos hsa] at hpt
    by_cases hha : hueColActive hue cols
    · rw [if_pos hha] at hpt
      simp only [if_neg (Bool.false_ne_true)] at hpt
      rcases List.mem_flatMap.mp hpt with ⟨g, hg, hpt2⟩
      unfold hueGroups at hg
      rcases List.mem_map.mp hg with ⟨hv, _, rfl⟩
      have hsub := groupSlice_sublist subset (hue.getD "") hv
      have hnum2 : ∀ r ∈ groupSlice subset (hue.getD "") hv,
          ∃ q : ℚ, cellV r y = some (Val.num q) :=
        fun r hr => hnum r (hsub.mem hr)
      have hin2 : ∀ q ∈ colNums (groupSlice subset (hue.getD "") hv) y,
          lo ≤ q ∧ q ≤ hi :=
        fun q hq => hin q ((colNums_sublist_mono hsub).mem hq)
      rcases hcs : computeSemStats (groupSlice subset (hue.getD "") hv) x y
          (semCol.getD "") with _ | pts
      · rw [hcs] at hpt2
        cases hpt2
      · rw [hcs] at hpt2
        exact computeSemStats_inside hnum2 hin2 hcs pt hpt2
    · rw [if_neg hha] at hpt
      simp only [if_neg (Bool.false_ne_true)] at hpt
      rcases hcs : computeSemStats subset x y (semCol.getD "") with _ | pts
      · rw [hcs] at hpt
        cases hpt
      · rw [hcs] at hpt
        exact computeSemStats_inside hnum hin hcs pt hpt
  · rw [if_neg hsa] at hpt
    by_cases hha : hueColActive hue cols
    · rw [if_pos hha] at hpt
      rcases List.mem_flatMap.mp hpt with ⟨g, hg, hpt2⟩
      unfold hueGroups at hg
      rcases List.mem_map.mp hg with ⟨hv, _, rfl⟩
      have hsub := groupSlice_sublist subset (hue.getD "") hv
      have hnum2 : ∀ r ∈ groupSlice subset (hue.getD "") hv,
          ∃ q : ℚ, cellV r y = some (Val.num q) :=
        fun r hr => hnum r (hsub.mem hr)
      have hin2 : ∀ q ∈ colNums (groupSlice subset (hue.getD "") hv) y,
          lo ≤ q ∧ q ≤ hi :=
        fun q hq => hin q ((colNums_sublist_mono hsub).mem hq)
      have hbounds := aggMeans_in_range (x := x) hnum2 hin2
      by_cases hme : (aggMeanByX (groupSlice subset (hue.getD "") hv) x y).map Prod.snd = []
      · rw [if_pos hme] at hpt2
        cases hpt2
      · rw [if_neg hme] at hpt2
        rcases List.mem_singleton.mp hpt2 with rfl
        exact ⟨(hbounds _ (listMin_mem hme)).1, (hbounds _ (listMax_mem hme)).2⟩
    · rw [if_neg hha] at hpt
      have hbounds := aggMeans_in_range (x := x) hnum hin
      by_cases hme : (aggMeanByX subset x y).map Prod.snd = []
      · rw [if_pos hme] at hpt
        cases hpt
      · rw [if_neg hme] at hpt
        rcases List.mem_singleton.mp hpt with rfl
        exact ⟨(hbounds _ (listMin_mem hme)).1, (hbounds _ (listMax_mem hme)).2⟩

theorem semLimits_band_mem {df : PDf} {filters : List (List (String × Val))}
    {x y : String} {semCol hue : Option String} {pre : Bool} {pt : BandPt}
    (h : pt ∈ (semLimitsEntries df filters x y semCol hue pre).2) :
    ∃ fq ∈ filters, applyFilter df.rows fq ≠ [] ∧
      pt ∈ semBandOfSubset df.cols (applyFilter df.rows fq) x y semCol hue pre := by
  unfold semLimitsEntries at h
  simp only [] at h
  have haux : ∀ (l : List (List (String × Val))) (acc : List BandPt),
      pt ∈ l.foldl (fun acc fq =>
        let subset := applyFilter df.rows fq
        if subset = [] then acc
        else acc ++ semBandOfSubset df.cols subset x y semCol hue pre) acc →
      pt ∈ acc ∨ ∃ fq ∈ l, applyFilter df.rows fq ≠ [] ∧
        pt ∈ semBandOfSubset df.cols (applyFilter df.rows fq) x y semCol hue pre := by
    intro l
    induction l with
    | nil => exact fun acc h2 => Or.inl h2
    | cons fq rest ih =>
      intro acc h2
      rw [List.foldl_cons] at h2
      rcases ih _ h2 with h3 | ⟨fq2, hfq2, hne2, hpt2⟩
      · simp only [] at h3
        by_cases hemp : applyFilter df.rows fq = []
        · rw [if_pos hemp] at h3
          exact Or.inl h3
        · rw [if_neg hemp] at h3
          rcases List.mem_append.mp h3 with h4 | h4
          · exact Or.inl h4
          · exact Or.inr ⟨fq, List.mem_cons_self fq rest, hemp, h4⟩
      · exact Or.inr ⟨fq2, List.mem_cons_of_mem fq hfq2, hne2, hpt2⟩
  rcases haux filters [] h with h2 | h2
  · cases h2
  · exact h2

/-- C7 counterexample: in pre-computed SEM mode the band is `mean ± mean(sem
column)`, and the SEM column is arbitrary user data.  With one row (x = 0,
y = 1, sem = 100) the SEM-aware y contribution is the interval [-99, 101],
while the raw shared limits on the same filtered data are x:(0,0), y:(1,1):
the SEM-aware range is far outside the raw range, contradicting the claimed
containment for every SEM mode. -/
theorem sem_limits_containment_counterexample :
    (semLimitsEntries (PDf.mk ["x", "y", "s"]
        [[("x", Val.num 0), ("y", Val.num 1), ("s", Val.num 100)]])
        [[]] "x" "y" (some "s") none true).2 = [BandPt.iv (-99) 101] ∧
    sharedLimits [applyFilter [[("x", Val.num 0), ("y", Val.num 1), ("s", Val.num 100)]] []]
      "x" "y" = ((0, 0), (1, 1)) ∧
    ¬ (BandPt.iv (-99) 101).inside 1 1 := by
  refine ⟨by with_unfolding_all decide, by with_unfolding_all decide, ?_⟩
  intro h
  have h1 : (1 : ℚ) ≤ -99 := h.1
  norm_num at h1

/-- C7 (amended): restricted to computed-SEM mode (or no SEM column), on fully
numeric x and y columns, the SEM-aware shared limits are contained in the raw
shared limits on the same filtered data: the x-axis accumulators are exactly
the raw per-subset (min, max) contributions, and every y-axis band
contribution — mean ± SEM, or a plain aggregated-mean interval — lies inside
the raw y range.  (In pre-computed SEM mode the band is mean ± mean(sem
column) and can exceed the raw range, per the counterexample.) -/
theorem sem_limits_containment_spec (df : PDf) (filters : List (List (String × Val)))
    (x y : String) (semCol hue : Option String)
    (hx : ∀ r ∈ df.rows, ∃ q : ℚ, cellV r x = some (Val.num q))
    (hy : ∀ r ∈ df.rows, ∃ q : ℚ, cellV r y = some (Val.num q)) :
    ((semLimitsEntries df filters x y semCol hue false).1 =
      minMaxEntries (filters.map (applyFilter df.rows)) x) ∧
    (∀ pt ∈ (semLimitsEntries df filters x y semCol hue false).2,
      pt.inside (sharedLimits (filters.map (applyFilter df.rows)) x y).2.1
        (sharedLimits (filters.map (applyFilter df.rows)) x y).2.2) := by
  refine ⟨rfl, ?_⟩
  intro pt hpt
  rcases semLimits_band_mem hpt with ⟨fq, hfq, hne, hmem⟩
  have hsub : (applyFilter df.rows fq).Sublist df.rows := applyFilter_sublist df.rows fq
  have hnumx : ∀ r ∈ applyFilter df.rows fq, ∃ q : ℚ, cellV r x = some (Val.num q) :=
    fun r hr => hx r (hsub.mem hr)
  have hnumy : ∀ r ∈ applyFilter df.rows fq, ∃ q : ℚ, cellV r y = some (Val.num q) :=
    fun r hr => hy r (hsub.mem hr)
  have hxne : colNums (applyFilter df.rows fq) x ≠ [] := colNums_ne_nil hne hnumx
  have hyne : colNums (applyFilter df.rows fq) y ≠ [] := colNums_ne_nil hne hnumy
  have hss : applyFilter df.rows fq ∈ filters.map (applyFilter df.rows) :=
    List.mem_map.mpr ⟨fq, hfq, rfl⟩
  have hflx : (filters.map (applyFilter df.rows)).flatMap (fun s => colNums s x) ≠ [] := by
    rcases List.exists_mem_of_ne_nil _ hxne with ⟨q, hq⟩
    exact List.ne_nil_of_mem (List.mem_flatMap.mpr ⟨applyFilter df.rows fq, hss, hq⟩)
  have hfly : (filters.map (applyFilter df.rows)).flatMap (fun s => colNums s y) ≠ [] := by
    rcases List.exists_mem_of_ne_nil _ hyne with ⟨q, hq⟩
    exact List.ne_nil_of_mem (List.mem_flatMap.mpr ⟨applyFilter df.rows fq, hss, hq⟩)
  rw [sharedLimits_eq_minmax (filters.map (applyFilter df.rows)) x y hflx hfly]
  simp only []
  apply semBandOfSubset_inside hnumy _ pt hmem
  intro q hq
  have hqin : q ∈ (filters.map (applyFilter df.rows)).flatMap (fun s => colNums s y) :=
    List.mem_flatMap.mpr ⟨applyFilter df.rows fq, hss, hq⟩
  exact ⟨listMin_le_of_mem hqin, le_listMax_of_mem hqin⟩

/-- Witness for C7 (amended): two subjects at x = 1 with y = 10 and 20 give the
band 15 ± sqrt 25, inside the raw y range (10, 20). -/
theorem sem_limits_containment_spec_witness :
    (∀ r ∈ ([[("x", Val.num 1), ("y", Val.num 10), ("s", Val.str "a")],
        [("x", Val.num 1), ("y", Val.num 20), ("s", Val.str "b")]] : List PRow),
      ∃ q : ℚ, cellV r "x" = some (Val.num q)) ∧
    (∀ r ∈ ([[("x", Val.num 1), ("y", Val.num 10), ("s", Val.str "a")],
        [("x", Val.num 1), ("y", Val.num 20), ("s", Val.str "b")]] : List PRow),
      ∃ q : ℚ, cellV r "y" = some (Val.num q)) ∧
    BandPt.sq 15 25 ∈ (semLimitsEntries (PDf.mk ["x", "y", "s"]
        [[("x", Val.num 1), ("y", Val.num 10), ("s", Val.str "a")],
         [("x", Val.num 1), ("y", Val.num 20), ("s", Val.str "b")]])
        [[]] "x" "y" (some "s") none false).2 ∧
    (BandPt.sq 15 25).inside
      (sharedLimits (([[]] : List (List (String × Val))).map (applyFilter
        [[("x", Val.num 1), ("y", Val.num 10), ("s", Val.str "a")],
         [("x", Val.num 1), ("y", Val.num 20), ("s", Val.str "b")]])) "x" "y").2.1
      (sharedLimits (([[]] : List (List (String × Val))).map (applyFilter
        [[("x", Val.num 1), ("y", Val.num 10), ("s", Val.str "a")],
         [("x", Val.num 1), ("y", Val.num 20), ("s", Val.str "b")]])) "x" "y").2.2 := by
  have hx : ∀ r ∈ ([[("x", Val.num 1), ("y", Val.num 10), ("s", Val.str "a")],
      [("x", Val.num 1), ("y", Val.num 20), ("s", Val.str "b")]] : List PRow),
      ∃ q : ℚ, cellV r "x" = some (Val.num q) := by
    intro r hr
    fin_cases hr <;> exact ⟨_, rfl⟩
  have hy : ∀ r ∈ ([[("x", Val.num 1), ("y", Val.num 10), ("s", Val.str "a")],
      [("x", Val.num 1), ("y", Val.num 20), ("s", Val.str "b")]] : List PRow),
      ∃ q : ℚ, cellV r "y" = some (Val.num q) := by
    intro r hr
    fin_cases hr <;> exact ⟨_, rfl⟩
  have hmem : BandPt.sq 15 25 ∈ (semLimitsEntries (PDf.mk ["x", "y", "s"]
      [[("x", Val.num 1), ("y", Val.num 10), ("s", Val.str "a")],
       [("x", Val.num 1), ("y", Val.num 20), ("s", Val.str "b")]])
      [[]] "x" "y" (some "s") none false).2 := by
    with_unfolding_all decide
  exact ⟨hx, hy, hmem,
    (sem_limits_containment_spec (PDf.mk ["x", "y", "s"]
      [[("x", Val.num 1), ("y", Val.num 10), ("s", Val.str "a")],
       [("x", Val.num 1), ("y", Val.num 20), ("s", Val.str "b")]])
      [[]] "x" "y" (some "s") none hx hy).2 (BandPt.sq 15 25) hmem⟩
